import Mathlib

/-!
Verification of the BIG Modelling Bus (Go, version 1).

This file shallowly embeds the parts of the repository that the checked
claims are about:

* the JSON diff/patch engine of generics/json_operations.go (the actual
  RFC 6902 algorithms live in the external packages wI2L/jsondiff and
  evanphx/json-patch, so they are modelled from the spec here);
* the Layer-3 artefact connector of connect/layer_3_artefacts.go
  (three-view state machine, delta posting and application);
* the per-agent timestamp generator of the Layer-1 protocol connector;
* the Layer-2 posting path and Layer-1 repository connector
  (connect/layer_2_basic_modelling_bus.go, connect/layer_3_observations.go).

Go byte strings holding JSON documents are modelled by an inductive JSON
value type; Go maps (JSON objects) are modelled as key-sorted duplicate-free
association lists, matching the canonical form produced by encoding/json,
which marshals maps with sorted keys. JSON numbers are abstracted to Int;
the diff/patch engine only ever compares numbers for equality, so the
abstraction is faithful for every claim below.
-/

/-- Modelled from the spec: a JSON document (section 4.3 treats any JSON
value: null, scalars, arrays, objects). Objects are association lists in
the canonical sorted form produced by Go's encoding/json. -/
inductive JSON where
  | null : JSON
  | bool (b : Bool) : JSON
  | num (n : Int) : JSON
  | str (s : String) : JSON
  | arr (xs : List JSON) : JSON
  | obj (fs : List (String × JSON)) : JSON

mutual

/-- Boolean equality of JSON documents (Go's deep equality of unmarshalled
values, used by the diff engine to compare leaves). -/
def beqJSON : JSON → JSON → Bool
  | JSON.null, JSON.null => true
  | JSON.bool a, JSON.bool b => a == b
  | JSON.num a, JSON.num b => a == b
  | JSON.str a, JSON.str b => a == b
  | JSON.arr xs, JSON.arr ys => beqArrJSON xs ys
  | JSON.obj fs, JSON.obj gs => beqObjJSON fs gs
  | _, _ => false
termination_by a b => sizeOf a + sizeOf b

/-- Element-wise equality of JSON arrays. -/
def beqArrJSON : List JSON → List JSON → Bool
  | [], [] => true
  | x :: xs, y :: ys => beqJSON x y && beqArrJSON xs ys
  | _, _ => false
termination_by xs ys => sizeOf xs + sizeOf ys

/-- Field-wise equality of JSON objects. -/
def beqObjJSON : List (String × JSON) → List (String × JSON) → Bool
  | [], [] => true
  | (k1, v1) :: fs, (k2, v2) :: gs => k1 == k2 && beqJSON v1 v2 && beqObjJSON fs gs
  | _, _ => false
termination_by fs gs => sizeOf fs + sizeOf gs

end

mutual

theorem beqJSON_eq : ∀ (a b : JSON), beqJSON a b = true ↔ a = b := by
  intro a b
  cases a <;> cases b <;> simp only [beqJSON, beq_iff_eq, Bool.and_eq_true,
    JSON.bool.injEq, JSON.num.injEq, JSON.str.injEq, JSON.arr.injEq, JSON.obj.injEq] <;>
    first
      | rfl
      | simp
      | exact beqArrJSON_eq _ _
      | exact beqObjJSON_eq _ _
termination_by a b => sizeOf a + sizeOf b

theorem beqArrJSON_eq : ∀ (xs ys : List JSON), beqArrJSON xs ys = true ↔ xs = ys := by
  intro xs ys
  cases xs with
  | nil => cases ys <;> simp [beqArrJSON]
  | cons x xs =>
    cases ys with
    | nil => simp [beqArrJSON]
    | cons y ys =>
      simp only [beqArrJSON, Bool.and_eq_true, List.cons.injEq]
      rw [beqJSON_eq, beqArrJSON_eq]
termination_by xs ys => sizeOf xs + sizeOf ys

theorem beqObjJSON_eq : ∀ (fs gs : List (String × JSON)), beqObjJSON fs gs = true ↔ fs = gs := by
  intro fs gs
  cases fs with
  | nil => cases gs <;> simp [beqObjJSON]
  | cons f fs =>
    cases gs with
    | nil =>
      cases f
      simp [beqObjJSON]
    | cons g gs =>
      cases f
      cases g
      simp only [beqObjJSON, Bool.and_eq_true, List.cons.injEq, Prod.mk.injEq, beq_iff_eq]
      rw [beqJSON_eq, beqObjJSON_eq, and_assoc]
termination_by fs gs => sizeOf fs + sizeOf gs

end

instance : DecidableEq JSON := fun a b => decidable_of_iff _ (beqJSON_eq a b)

/-- One step of an RFC 6902 JSON pointer: an object member name or an
array index. -/
inductive Token where
  | key (k : String) : Token
  | idx (i : Nat) : Token
deriving DecidableEq, Repr

/-- Modelled from the spec: an RFC 6902 patch operation, as produced by
the diff engine (add, remove, replace). -/
inductive PatchOp where
  | add (path : List Token) (v : JSON) : PatchOp
  | remove (path : List Token) : PatchOp
  | replace (path : List Token) (v : JSON) : PatchOp
deriving DecidableEq

/-- Look up a key in an object's field list. -/
def objGet (k : String) : List (String × JSON) → Option JSON
  | [] => none
  | (k1, v) :: fs => if k1 = k then some v else objGet k fs

/-- Replace the value of an existing key, leaving the list unchanged when
the key is absent. -/
def objSet (k : String) (v : JSON) : List (String × JSON) → List (String × JSON)
  | [] => []
  | (k1, v1) :: fs => if k1 = k then (k1, v) :: fs else (k1, v1) :: objSet k v fs

/-- RFC 6902 add on an object: replace the member when the key exists,
otherwise insert it (at its sorted position, keeping the canonical form). -/
def objInsert (k : String) (v : JSON) : List (String × JSON) → List (String × JSON)
  | [] => [(k, v)]
  | (k1, v1) :: fs =>
    if k = k1 then (k1, v) :: fs
    else if k < k1 then (k, v) :: (k1, v1) :: fs
    else (k1, v1) :: objInsert k v fs

/-- Remove a key from an object's field list. -/
def objRemove (k : String) : List (String × JSON) → List (String × JSON)
  | [] => []
  | (k1, v1) :: fs => if k1 = k then fs else (k1, v1) :: objRemove k fs

/-- Read the sub-document at a pointer path. -/
def getAt : JSON → List Token → Option JSON
  | doc, [] => some doc
  | JSON.obj fs, Token.key k :: p =>
    match objGet k fs with
    | some child => getAt child p
    | none => none
  | JSON.arr xs, Token.idx i :: p =>
    match xs[i]? with
    | some child => getAt child p
    | none => none
  | _, _ => none

/-- Replace the sub-document at a pointer path (the target must exist). -/
def setAt : JSON → List Token → JSON → Option JSON
  | _, [], v => some v
  | JSON.obj fs, Token.key k :: p, v =>
    match objGet k fs with
    | some child => (setAt child p v).map (fun c => JSON.obj (objSet k c fs))
    | none => none
  | JSON.arr xs, Token.idx i :: p, v =>
    match xs[i]? with
    | some child => (setAt child p v).map (fun c => JSON.arr (xs.set i c))
    | none => none
  | _, _, _ => none

/-- Modelled from the spec: RFC 6902 "add". At the root it replaces the
whole document; in an object it inserts or replaces the member; in an
array it inserts at the index (appending when the index equals the
length). -/
def applyAdd : List Token → JSON → JSON → Option JSON
  | [], v, _ => some v
  | [Token.key k], v, JSON.obj fs => some (JSON.obj (objInsert k v fs))
  | [Token.idx i], v, JSON.arr xs =>
    if i ≤ xs.length then some (JSON.arr (xs.insertIdx i v)) else none
  | Token.key k :: t :: p, v, JSON.obj fs =>
    match objGet k fs with
    | some child => (applyAdd (t :: p) v child).map (fun c => JSON.obj (objSet k c fs))
    | none => none
  | Token.idx i :: t :: p, v, JSON.arr xs =>
    match xs[i]? with
    | some child => (applyAdd (t :: p) v child).map (fun c => JSON.arr (xs.set i c))
    | none => none
  | _, _, _ => none

/-- Modelled from the spec: RFC 6902 "remove". The target location must
exist; removing the root document is an error. -/
def applyRemove : List Token → JSON → Option JSON
  | [], _ => none
  | [Token.key k], JSON.obj fs =>
    match objGet k fs with
    | some _ => some (JSON.obj (objRemove k fs))
    | none => none
  | [Token.idx i], JSON.arr xs =>
    if i < xs.length then some (JSON.arr (xs.eraseIdx i)) else none
  | Token.key k :: t :: p, JSON.obj fs =>
    match objGet k fs with
    | some child => (applyRemove (t :: p) child).map (fun c => JSON.obj (objSet k c fs))
    | none => none
  | Token.idx i :: t :: p, JSON.arr xs =>
    match xs[i]? with
    | some child => (applyRemove (t :: p) child).map (fun c => JSON.arr (xs.set i c))
    | none => none
  | _, _ => none

/-- Modelled from the spec: RFC 6902 "replace" (the target must exist). -/
def applyReplace (p : List Token) (v : JSON) (doc : JSON) : Option JSON :=
  setAt doc p v

/-- Apply a single patch operation to a document. -/
def applyOp (doc : JSON) : PatchOp → Option JSON
  | PatchOp.add p v => applyAdd p v doc
  | PatchOp.remove p => applyRemove p doc
  | PatchOp.replace p v => applyReplace p v doc

/-- Apply a patch (a list of operations, in order); any failing operation
fails the whole application, mirroring patch.Apply of evanphx/json-patch. -/
def applyOps : List PatchOp → JSON → Option JSON
  | [], doc => some doc
  | op :: ops, doc =>
    match applyOp doc op with
    | some doc1 => applyOps ops doc1
    | none => none

mutual

/-- Modelled from the spec: the structural JSON diff C3 computes
("diff(oldJSON, newJSON) → patch, an RFC 6902 JSON Patch; empty patch
is a no-op"; the concrete algorithm lives in the external wI2L/jsondiff
package, absent from the repository). Objects and arrays are compared
member-wise; any other difference becomes a replace at the current path. -/
def diffJSON : List Token → JSON → JSON → List PatchOp
  | path, JSON.obj fa, JSON.obj fb => diffObj path fa fb
  | path, JSON.arr xa, JSON.arr xb => diffArr path 0 xa xb
  | path, a, b => if a = b then [] else [PatchOp.replace path b]
termination_by path a b => sizeOf a + sizeOf b

/-- Member-wise diff of two objects in canonical (key-sorted) form:
a merge walk emitting removes for keys only in the source, adds for keys
only in the target, and recursing on shared keys. -/
def diffObj : List Token → List (String × JSON) → List (String × JSON) → List PatchOp
  | _, [], [] => []
  | path, [], (kb, vb) :: fb => PatchOp.add (path ++ [Token.key kb]) vb :: diffObj path [] fb
  | path, (ka, _) :: fa, [] => PatchOp.remove (path ++ [Token.key ka]) :: diffObj path fa []
  | path, (ka, va) :: fa, (kb, vb) :: fb =>
    if ka < kb then PatchOp.remove (path ++ [Token.key ka]) :: diffObj path fa ((kb, vb) :: fb)
    else if kb < ka then PatchOp.add (path ++ [Token.key kb]) vb :: diffObj path ((ka, va) :: fa) fb
    else diffJSON (path ++ [Token.key ka]) va vb ++ diffObj path fa fb
termination_by path fa fb => sizeOf fa + sizeOf fb

/-- Element-wise diff of two arrays: recurse on the shared prefix, append
adds for a longer target, emit removes at the cut-off index for a longer
source. -/
def diffArr : List Token → Nat → List JSON → List JSON → List PatchOp
  | _, _, [], [] => []
  | path, i, [], b :: bs => PatchOp.add (path ++ [Token.idx i]) b :: diffArr path (i + 1) [] bs
  | path, i, _ :: as_, [] => PatchOp.remove (path ++ [Token.idx i]) :: diffArr path i as_ []
  | path, i, a :: as_, b :: bs => diffJSON (path ++ [Token.idx i]) a b ++ diffArr path (i + 1) as_ bs
termination_by path i xa xb => sizeOf xa + sizeOf xb

end

/-- JSONDiff of generics/json_operations.go: compute the difference
between two JSONs as an RFC 6902 patch (diff at the root path). -/
def JSONDiff (sourceJSON targetJSON : JSON) : List PatchOp :=
  diffJSON [] sourceJSON targetJSON

/-- JSONApplyPatch of generics/json_operations.go: apply a patch to a
source JSON, failing on any failing operation. -/
def JSONApplyPatch (sourceJSON : JSON) (patchOps : List PatchOp) : Option JSON :=
  applyOps patchOps sourceJSON

/-- Generic modification of the sub-document at a path: navigate to the
target, transform it with f, and rebuild the document along the way.
Proof-only device tying the patch operations together. -/
def modAt : JSON → List Token → (JSON → Option JSON) → Option JSON
  | doc, [], f => f doc
  | JSON.obj fs, Token.key k :: p, f =>
    match objGet k fs with
    | some child => (modAt child p f).map (fun c => JSON.obj (objSet k c fs))
    | none => none
  | JSON.arr xs, Token.idx i :: p, f =>
    match xs[i]? with
    | some child => (modAt child p f).map (fun c => JSON.arr (xs.set i c))
    | none => none
  | _, _, _ => none

/-- The final step of an add operation, acting on the parent container. -/
def addLeaf : Token → JSON → JSON → Option JSON
  | Token.key k, v, JSON.obj fs => some (JSON.obj (objInsert k v fs))
  | Token.idx i, v, JSON.arr xs =>
    if i ≤ xs.length then some (JSON.arr (xs.insertIdx i v)) else none
  | _, _, _ => none

/-- The final step of a remove operation, acting on the parent container. -/
def removeLeaf : Token → JSON → Option JSON
  | Token.key k, JSON.obj fs =>
    match objGet k fs with
    | some _ => some (JSON.obj (objRemove k fs))
    | none => none
  | Token.idx i, JSON.arr xs =>
    if i < xs.length then some (JSON.arr (xs.eraseIdx i)) else none
  | _, _ => none

/-- The keys of a field list are strictly increasing. -/
def keysSorted : List (String × JSON) → Bool
  | [] => true
  | [_] => true
  | (k1, _) :: (k2, v2) :: fs => decide (k1 < k2) && keysSorted ((k2, v2) :: fs)

mutual

/-- Well-formedness of the embedding: every object is in the canonical
key-sorted duplicate-free form in which Go's encoding/json marshals maps. -/
def wfB : JSON → Bool
  | JSON.null => true
  | JSON.bool _ => true
  | JSON.num _ => true
  | JSON.str _ => true
  | JSON.arr xs => wfArr xs
  | JSON.obj fs => keysSorted fs && wfObj fs
termination_by j => sizeOf j

/-- All elements of an array are well-formed. -/
def wfArr : List JSON → Bool
  | [] => true
  | x :: xs => wfB x && wfArr xs
termination_by xs => sizeOf xs

/-- All values of an object are well-formed. -/
def wfObj : List (String × JSON) → Bool
  | [] => true
  | (_, v) :: fs => wfB v && wfObj fs
termination_by fs => sizeOf fs

end

/-!
### Toolkit for the diff/patch round-trip proof
-/

theorem applyOps_append (l1 l2 : List PatchOp) (doc : JSON) :
    applyOps (l1 ++ l2) doc = (applyOps l1 doc).bind (fun d => applyOps l2 d) := by
  induction l1 generalizing doc with
  | nil => simp [applyOps]
  | cons op ops ih =>
    simp only [List.cons_append, applyOps]
    cases applyOp doc op with
    | none => simp
    | some d => simp [ih]

theorem setAt_eq_modAt (p : List Token) (C v : JSON) :
    setAt C p v = modAt C p (fun _ => some v) := by
  induction p generalizing C with
  | nil => simp [setAt, modAt]
  | cons t p ih =>
    cases t with
    | key k =>
      cases C <;> try rfl
      case obj fs =>
        simp only [setAt, modAt]
        cases objGet k fs with
        | none => rfl
        | some child => simp [ih]
    | idx i =>
      cases C <;> try rfl
      case arr xs =>
        simp only [setAt, modAt]
        cases xs[i]? with
        | none => rfl
        | some child => simp [ih]

theorem modAt_append (p q : List Token) (C : JSON) (f : JSON → Option JSON) :
    modAt C (p ++ q) f = modAt C p (fun sub => modAt sub q f) := by
  induction p generalizing C with
  | nil => simp [modAt]
  | cons t p ih =>
    cases t with
    | key k =>
      cases C <;> try rfl
      case obj fs =>
        simp only [List.cons_append, modAt]
        cases objGet k fs with
        | none => rfl
        | some child => simp [ih]
    | idx i =>
      cases C <;> try rfl
      case arr xs =>
        simp only [List.cons_append, modAt]
        cases xs[i]? with
        | none => rfl
        | some child => simp [ih]

theorem getAt_append (p q : List Token) (C : JSON) :
    getAt C (p ++ q) = (getAt C p).bind (fun sub => getAt sub q) := by
  induction p generalizing C with
  | nil => simp [getAt]
  | cons t p ih =>
    cases t with
    | key k =>
      cases C <;> try rfl
      case obj fs =>
        simp only [List.cons_append, getAt]
        cases objGet k fs with
        | none => rfl
        | some child => simp [ih]
    | idx i =>
      cases C <;> try rfl
      case arr xs =>
        simp only [List.cons_append, getAt]
        cases xs[i]? with
        | none => rfl
        | some child => simp [ih]

theorem modAt_spec (p : List Token) (C A : JSON) (f : JSON → Option JSON)
    (hget : getAt C p = some A) :
    modAt C p f = (f A).bind (fun r => setAt C p r) := by
  induction p generalizing C with
  | nil =>
    simp only [getAt, Option.some.injEq] at hget
    subst hget
    simp only [modAt]
    cases f C with
    | none => rfl
    | some r => simp [setAt]
  | cons t p ih =>
    cases t with
    | key k =>
      cases C <;> simp only [getAt] at hget <;> try exact absurd hget (by simp)
      case obj fs =>
        cases hg : objGet k fs with
        | none => rw [hg] at hget; exact absurd hget (by simp)
        | some child =>
          rw [hg] at hget
          simp only [modAt, setAt, hg, ih child hget]
          cases f A with
          | none => rfl
          | some r => cases setAt child p r <;> rfl
    | idx i =>
      cases C <;> simp only [getAt] at hget <;> try exact absurd hget (by simp)
      case arr xs =>
        cases hg : xs[i]? with
        | none => rw [hg] at hget; exact absurd hget (by simp)
        | some child =>
          rw [hg] at hget
          simp only [modAt, setAt, hg, ih child hget]
          cases f A with
          | none => rfl
          | some r => cases setAt child p r <;> rfl

theorem objSet_self (k : String) (fs : List (String × JSON)) (v : JSON)
    (h : objGet k fs = some v) : objSet k v fs = fs := by
  induction fs with
  | nil => rfl
  | cons f1 fs ih =>
    obtain ⟨k1, v1⟩ := f1
    simp only [objGet] at h
    by_cases hk : k1 = k
    · rw [if_pos hk] at h
      cases h
      simp [objSet, hk]
    · rw [if_neg hk] at h
      simp [objSet, hk, ih h]

theorem list_set_self {α : Type} (xs : List α) (i : Nat) (a : α)
    (h : xs[i]? = some a) : xs.set i a = xs := by
  induction xs generalizing i with
  | nil => simp at h
  | cons x xs ih =>
    cases i with
    | zero =>
      simp only [List.getElem?_cons_zero, Option.some.injEq] at h
      simp [List.set, h]
    | succ n =>
      simp only [List.getElem?_cons_succ] at h
      simp [List.set, ih n h]

theorem setAt_self (p : List Token) (C A : JSON) (hget : getAt C p = some A) :
    setAt C p A = some C := by
  induction p generalizing C with
  | nil =>
    simp only [getAt, Option.some.injEq] at hget
    subst hget
    simp [setAt]
  | cons t p ih =>
    cases t with
    | key k =>
      cases C <;> simp only [getAt] at hget <;> try exact Option.noConfusion hget
      case obj fs =>
        cases hg : objGet k fs with
        | none =>
          simp only [hg] at hget
          exact Option.noConfusion hget
        | some child =>
          simp only [hg] at hget
          simp [setAt, hg, ih child hget, objSet_self k fs child hg]
    | idx i =>
      cases C <;> simp only [getAt] at hget <;> try exact Option.noConfusion hget
      case arr xs =>
        cases hg : xs[i]? with
        | none =>
          simp only [hg] at hget
          exact Option.noConfusion hget
        | some child =>
          simp only [hg] at hget
          simp [setAt, hg, ih child hget, list_set_self xs i child hg]

theorem setAt_total (p : List Token) (C A X : JSON) (hget : getAt C p = some A) :
    ∃ C1, setAt C p X = some C1 := by
  induction p generalizing C with
  | nil => exact ⟨X, by simp [setAt]⟩
  | cons t p ih =>
    cases t with
    | key k =>
      cases C <;> simp only [getAt] at hget <;> try exact Option.noConfusion hget
      case obj fs =>
        cases hg : objGet k fs with
        | none =>
          simp only [hg] at hget
          exact Option.noConfusion hget
        | some child =>
          simp only [hg] at hget
          obtain ⟨C1, hC1⟩ := ih child hget
          exact ⟨JSON.obj (objSet k C1 fs), by simp [setAt, hg, hC1]⟩
    | idx i =>
      cases C <;> simp only [getAt] at hget <;> try exact Option.noConfusion hget
      case arr xs =>
        cases hg : xs[i]? with
        | none =>
          simp only [hg] at hget
          exact Option.noConfusion hget
        | some child =>
          simp only [hg] at hget
          obtain ⟨C1, hC1⟩ := ih child hget
          exact ⟨JSON.arr (xs.set i C1), by simp [setAt, hg, hC1]⟩

theorem objGet_objSet_self (k : String) (v : JSON) (fs : List (String × JSON)) (w : JSON)
    (h : objGet k fs = some w) : objGet k (objSet k v fs) = some v := by
  induction fs with
  | nil => exact Option.noConfusion h
  | cons f1 fs ih =>
    obtain ⟨k1, v1⟩ := f1
    simp only [objGet] at h
    by_cases hk : k1 = k
    · simp [objSet, objGet, hk]
    · rw [if_neg hk] at h
      simp [objSet, objGet, hk, ih h]

theorem getAt_setAt (p : List Token) (C X C1 : JSON) (hset : setAt C p X = some C1) :
    getAt C1 p = some X := by
  induction p generalizing C C1 with
  | nil =>
    simp only [setAt, Option.some.injEq] at hset
    subst hset
    simp [getAt]
  | cons t p ih =>
    cases t with
    | key k =>
      cases C <;> simp only [setAt] at hset <;> try exact Option.noConfusion hset
      case obj fs =>
        cases hg : objGet k fs with
        | none =>
          simp only [hg] at hset
          exact Option.noConfusion hset
        | some child =>
          simp only [hg] at hset
          cases hs : setAt child p X with
          | none =>
            simp only [hs] at hset
            exact Option.noConfusion hset
          | some c1 =>
            simp only [hs, Option.map_some', Option.map_some, Option.some.injEq] at hset
            subst hset
            simp [getAt, objGet_objSet_self k c1 fs child hg, ih child c1 hs]
    | idx i =>
      cases C <;> simp only [setAt] at hset <;> try exact Option.noConfusion hset
      case arr xs =>
        cases hg : xs[i]? with
        | none =>
          simp only [hg] at hset
          exact Option.noConfusion hset
        | some child =>
          simp only [hg] at hset
          cases hs : setAt child p X with
          | none =>
            simp only [hs] at hset
            exact Option.noConfusion hset
          | some c1 =>
            simp only [hs, Option.map_some', Option.map_some, Option.some.injEq] at hset
            subst hset
            have hlen : i < xs.length := by
              by_contra hbig
              rw [List.getElem?_eq_none (by omega)] at hg
              exact Option.noConfusion hg
            simp [getAt, List.getElem?_set_self, hlen, ih child c1 hs]

theorem objSet_objSet (k : String) (v w : JSON) (fs : List (String × JSON)) :
    objSet k w (objSet k v fs) = objSet k w fs := by
  induction fs with
  | nil => rfl
  | cons f1 fs ih =>
    obtain ⟨k1, v1⟩ := f1
    by_cases hk : k1 = k
    · simp [objSet, hk]
    · simp [objSet, hk, ih]

theorem setAt_setAt (p : List Token) (C X C1 Y : JSON) (hset : setAt C p X = some C1) :
    setAt C1 p Y = setAt C p Y := by
  induction p generalizing C C1 with
  | nil => simp [setAt]
  | cons t p ih =>
    cases t with
    | key k =>
      cases C <;> simp only [setAt] at hset <;> try exact Option.noConfusion hset
      case obj fs =>
        cases hg : objGet k fs with
        | none =>
          simp only [hg] at hset
          exact Option.noConfusion hset
        | some child =>
          simp only [hg] at hset
          cases hs : setAt child p X with
          | none =>
            simp only [hs] at hset
            exact Option.noConfusion hset
          | some c1 =>
            simp only [hs, Option.map_some', Option.map_some, Option.some.injEq] at hset
            subst hset
            simp [setAt, objGet_objSet_self k c1 fs child hg, ih child c1 hs, hg, objSet_objSet]
    | idx i =>
      cases C <;> simp only [setAt] at hset <;> try exact Option.noConfusion hset
      case arr xs =>
        cases hg : xs[i]? with
        | none =>
          simp only [hg] at hset
          exact Option.noConfusion hset
        | some child =>
          simp only [hg] at hset
          cases hs : setAt child p X with
          | none =>
            simp only [hs] at hset
            exact Option.noConfusion hset
          | some c1 =>
            simp only [hs, Option.map_some', Option.map_some, Option.some.injEq] at hset
            subst hset
            have hlen : i < xs.length := by
              by_contra hbig
              rw [List.getElem?_eq_none (by omega)] at hg
              exact Option.noConfusion hg
            have hidx : xs[i] = child := by
              have h2 := hg
              rw [List.getElem?_eq_getElem hlen] at h2
              exact Option.some.inj h2
            simp [setAt, List.getElem?_set_self, hlen, ih child c1 hs, List.set_set, hidx]

theorem applyAdd_split (p : List Token) (t : Token) (v : JSON) (C : JSON) :
    applyAdd (p ++ [t]) v C = modAt C p (addLeaf t v) := by
  induction p generalizing C with
  | nil => cases t <;> cases C <;> simp [applyAdd, modAt, addLeaf]
  | cons t1 p ih =>
    rw [List.cons_append]
    rcases hq : p ++ [t] with _ | ⟨t2, q⟩
    · exact absurd hq (by simp)
    · cases t1 with
      | key k =>
        cases C <;> simp only [applyAdd, modAt]
        case obj fs =>
          cases hg : objGet k fs with
          | none => simp [hg]
          | some child =>
            simp only [hg]
            rw [← hq, ih child]
      | idx i =>
        cases C <;> simp only [applyAdd, modAt]
        case arr xs =>
          cases hg : xs[i]? with
          | none => simp [hg]
          | some child =>
            simp only [hg]
            rw [← hq, ih child]

theorem applyRemove_split (p : List Token) (t : Token) (C : JSON) :
    applyRemove (p ++ [t]) C = modAt C p (removeLeaf t) := by
  induction p generalizing C with
  | nil => cases t <;> cases C <;> simp [applyRemove, modAt, removeLeaf]
  | cons t1 p ih =>
    rw [List.cons_append]
    rcases hq : p ++ [t] with _ | ⟨t2, q⟩
    · exact absurd hq (by simp)
    · cases t1 with
      | key k =>
        cases C <;> simp only [applyRemove, modAt]
        case obj fs =>
          cases hg : objGet k fs with
          | none => simp [hg]
          | some child =>
            simp only [hg]
            rw [← hq, ih child]
      | idx i =>
        cases C <;> simp only [applyRemove, modAt]
        case arr xs =>
          cases hg : xs[i]? with
          | none => simp [hg]
          | some child =>
            simp only [hg]
            rw [← hq, ih child]

theorem applyAdd_key (p : List Token) (k : String) (v C : JSON) (fs : List (String × JSON))
    (hget : getAt C p = some (JSON.obj fs)) :
    applyAdd (p ++ [Token.key k]) v C = setAt C p (JSON.obj (objInsert k v fs)) := by
  rw [applyAdd_split, modAt_spec p C _ _ hget]
  simp [addLeaf]

theorem applyAdd_idx (p : List Token) (i : Nat) (v C : JSON) (xs : List JSON)
    (hget : getAt C p = some (JSON.arr xs)) (hle : i ≤ xs.length) :
    applyAdd (p ++ [Token.idx i]) v C = setAt C p (JSON.arr (xs.insertIdx i v)) := by
  rw [applyAdd_split, modAt_spec p C _ _ hget]
  simp [addLeaf, hle]

theorem applyRemove_key (p : List Token) (k : String) (C : JSON) (fs : List (String × JSON))
    (w : JSON) (hget : getAt C p = some (JSON.obj fs)) (hg : objGet k fs = some w) :
    applyRemove (p ++ [Token.key k]) C = setAt C p (JSON.obj (objRemove k fs)) := by
  rw [applyRemove_split, modAt_spec p C _ _ hget]
  simp [removeLeaf, hg]

theorem applyRemove_idx (p : List Token) (i : Nat) (C : JSON) (xs : List JSON)
    (hget : getAt C p = some (JSON.arr xs)) (hlt : i < xs.length) :
    applyRemove (p ++ [Token.idx i]) C = setAt C p (JSON.arr (xs.eraseIdx i)) := by
  rw [applyRemove_split, modAt_spec p C _ _ hget]
  simp [removeLeaf, hlt]

theorem setAt_append_key (p : List Token) (k : String) (v C : JSON) (fs : List (String × JSON))
    (w : JSON) (hget : getAt C p = some (JSON.obj fs)) (hg : objGet k fs = some w) :
    setAt C (p ++ [Token.key k]) v = setAt C p (JSON.obj (objSet k v fs)) := by
  rw [setAt_eq_modAt, modAt_append, modAt_spec p C _ _ hget]
  simp [modAt, hg]

theorem setAt_append_idx (p : List Token) (i : Nat) (v C : JSON) (xs : List JSON)
    (w : JSON) (hget : getAt C p = some (JSON.arr xs)) (hg : xs[i]? = some w) :
    setAt C (p ++ [Token.idx i]) v = setAt C p (JSON.arr (xs.set i v)) := by
  rw [setAt_eq_modAt, modAt_append, modAt_spec p C _ _ hget]
  simp [modAt, hg]

theorem applyOps_one (op : PatchOp) (C : JSON) : applyOps [op] C = applyOp C op := by
  cases h : applyOp C op <;> simp [applyOps, h]

/-!
### Sorted association lists and array index lemmas
-/

theorem keysSorted_iff_chain (fs : List (String × JSON)) :
    keysSorted fs = true ↔ (fs.map Prod.fst).Chain' (· < ·) := by
  induction fs with
  | nil => simp [keysSorted]
  | cons f1 fs ih =>
    obtain ⟨k1, v1⟩ := f1
    cases fs with
    | nil => simp [keysSorted]
    | cons f2 fs2 =>
      obtain ⟨k2, v2⟩ := f2
      rw [keysSorted]
      simp only [Bool.and_eq_true, decide_eq_true_eq, ih, List.map_cons, List.chain'_cons]

theorem keysSorted_iff_pairwise (fs : List (String × JSON)) :
    keysSorted fs = true ↔ (fs.map Prod.fst).Pairwise (· < ·) := by
  rw [keysSorted_iff_chain, List.chain'_iff_pairwise]

theorem objInsert_append_last (k : String) (v : JSON) (pre : List (String × JSON))
    (hpre : ∀ x ∈ pre, x.1 < k) : objInsert k v pre = pre ++ [(k, v)] := by
  induction pre with
  | nil => rfl
  | cons f0 pre ih =>
    obtain ⟨k0, v0⟩ := f0
    have h0 : k0 < k := hpre (k0, v0) (List.mem_cons_self _ _)
    rw [objInsert, if_neg (by exact fun h => absurd (h ▸ h0) (lt_irrefl k)),
      if_neg (by exact fun h => absurd (h0.trans h) (lt_irrefl k0))]
    simp only [List.cons_append, List.cons.injEq, true_and]
    exact ih (fun x hx => hpre x (List.mem_cons_of_mem _ hx))

theorem objInsert_append_mid (k k1 : String) (v w : JSON) (pre rest : List (String × JSON))
    (hpre : ∀ x ∈ pre, x.1 < k) (hk : k < k1) :
    objInsert k v (pre ++ (k1, w) :: rest) = pre ++ (k, v) :: (k1, w) :: rest := by
  induction pre with
  | nil =>
    rw [List.nil_append, objInsert, if_neg (ne_of_lt hk), if_pos hk, List.nil_append]
  | cons f0 pre ih =>
    obtain ⟨k0, v0⟩ := f0
    have h0 : k0 < k := hpre (k0, v0) (List.mem_cons_self _ _)
    rw [List.cons_append, objInsert, if_neg (by exact fun h => absurd (h ▸ h0) (lt_irrefl k)),
      if_neg (by exact fun h => absurd (h0.trans h) (lt_irrefl k0))]
    simp only [List.cons_append, List.cons.injEq, true_and]
    exact ih (fun x hx => hpre x (List.mem_cons_of_mem _ hx))

theorem objRemove_append (k : String) (va : JSON) (pre fa : List (String × JSON))
    (hpre : ∀ x ∈ pre, x.1 ≠ k) : objRemove k (pre ++ (k, va) :: fa) = pre ++ fa := by
  induction pre with
  | nil => simp [objRemove]
  | cons f0 pre ih =>
    obtain ⟨k0, v0⟩ := f0
    have h0 : k0 ≠ k := hpre (k0, v0) (List.mem_cons_self _ _)
    rw [List.cons_append, objRemove, if_neg h0]
    simp only [List.cons_append, List.cons.injEq, true_and]
    exact ih (fun x hx => hpre x (List.mem_cons_of_mem _ hx))

theorem objSet_append (k : String) (v va : JSON) (pre fa : List (String × JSON))
    (hpre : ∀ x ∈ pre, x.1 ≠ k) : objSet k v (pre ++ (k, va) :: fa) = pre ++ (k, v) :: fa := by
  induction pre with
  | nil => simp [objSet]
  | cons f0 pre ih =>
    obtain ⟨k0, v0⟩ := f0
    have h0 : k0 ≠ k := hpre (k0, v0) (List.mem_cons_self _ _)
    rw [List.cons_append, objSet, if_neg h0]
    simp only [List.cons_append, List.cons.injEq, true_and]
    exact ih (fun x hx => hpre x (List.mem_cons_of_mem _ hx))

theorem objGet_append (k : String) (va : JSON) (pre fa : List (String × JSON))
    (hpre : ∀ x ∈ pre, x.1 ≠ k) : objGet k (pre ++ (k, va) :: fa) = some va := by
  induction pre with
  | nil => simp [objGet]
  | cons f0 pre ih =>
    obtain ⟨k0, v0⟩ := f0
    have h0 : k0 ≠ k := hpre (k0, v0) (List.mem_cons_self _ _)
    rw [List.cons_append, objGet, if_neg h0]
    exact ih (fun x hx => hpre x (List.mem_cons_of_mem _ hx))

theorem getElem?_append_cons {α : Type} (pre : List α) (a : α) (as : List α) :
    (pre ++ a :: as)[pre.length]? = some a := by
  induction pre with
  | nil => simp
  | cons x pre ih => simpa using ih

theorem set_append_cons {α : Type} (pre : List α) (a b : α) (as : List α) :
    (pre ++ a :: as).set pre.length b = pre ++ b :: as := by
  induction pre with
  | nil => rfl
  | cons x pre ih => simpa using ih

theorem eraseIdx_append_cons {α : Type} (pre : List α) (a : α) (as : List α) :
    (pre ++ a :: as).eraseIdx pre.length = pre ++ as := by
  induction pre with
  | nil => rfl
  | cons x pre ih => simpa using ih

theorem wfArr_mem (xs : List JSON) : wfArr xs = true ↔ ∀ x ∈ xs, wfB x = true := by
  induction xs with
  | nil => simp [wfArr]
  | cons x xs ih => simp [wfArr, ih]

theorem wfObj_mem (fs : List (String × JSON)) : wfObj fs = true ↔ ∀ kv ∈ fs, wfB kv.2 = true := by
  induction fs with
  | nil => simp [wfObj]
  | cons f fs ih =>
    obtain ⟨k, v⟩ := f
    simp [wfObj, ih]

theorem pairwise_cross_head (pre fb : List (String × JSON)) (kb : String) (vb : JSON)
    (h : ((pre ++ (kb, vb) :: fb).map Prod.fst).Pairwise (· < ·)) :
    ∀ x ∈ pre, x.1 < kb := by
  intro x hx
  rw [List.map_append, List.pairwise_append] at h
  exact h.2.2 x.1 (List.mem_map_of_mem _ hx) kb (by simp)

theorem pairwiseKeys_mono (fs gs : List (String × JSON)) (hsub : fs.Sublist gs)
    (h : (gs.map Prod.fst).Pairwise (· < ·)) : (fs.map Prod.fst).Pairwise (· < ·) :=
  List.Pairwise.sublist (hsub.map Prod.fst) h


theorem pairwise_append_last (pre fb1 : List (String × JSON)) (kb : String) (vb : JSON)
    (hsb : ((pre ++ (kb, vb) :: fb1).map Prod.fst).Pairwise (· < ·)) :
    ((pre ++ [(kb, vb)]).map Prod.fst).Pairwise (· < ·) :=
  pairwiseKeys_mono _ _
    (List.Sublist.append_left (List.cons_sublist_cons.mpr (List.nil_sublist fb1)) pre) hsb

theorem pairwise_drop_hd (pre : List (String × JSON)) (ka : String) (va : JSON)
    (fa1 : List (String × JSON))
    (hsa : ((pre ++ (ka, va) :: fa1).map Prod.fst).Pairwise (· < ·)) :
    ((pre ++ fa1).map Prod.fst).Pairwise (· < ·) :=
  pairwiseKeys_mono _ _
    (List.Sublist.append_left (List.sublist_cons_self _ _) pre) hsa

theorem pairwise_insert_mid (pre fa1 fb1 : List (String × JSON)) (ka kb : String) (va vb : JSON)
    (hsa : ((pre ++ (ka, va) :: fa1).map Prod.fst).Pairwise (· < ·))
    (hsb : ((pre ++ (kb, vb) :: fb1).map Prod.fst).Pairwise (· < ·))
    (h2 : kb < ka) :
    ((pre ++ (kb, vb) :: (ka, va) :: fa1).map Prod.fst).Pairwise (· < ·) := by
  rw [List.map_append, List.pairwise_append] at hsa ⊢
  obtain ⟨hpre, hmid, hcross⟩ := hsa
  refine ⟨hpre, ?_, ?_⟩
  · rw [List.map_cons, List.pairwise_cons]
    refine ⟨?_, hmid⟩
    intro b hb
    rw [List.map_cons] at hb
    rcases List.mem_cons.mp hb with h | h
    · exact h ▸ h2
    · rw [List.map_cons, List.pairwise_cons] at hmid
      exact h2.trans (hmid.1 b h)
  · intro a ha b hb
    rw [List.map_cons] at hb
    rcases List.mem_cons.mp hb with h | h
    · rw [h]
      rcases List.mem_map.mp ha with ⟨x, hx, rfl⟩
      exact pairwise_cross_head pre fb1 kb vb hsb x hx
    · exact hcross a ha b h

theorem diffJSON_scalar_spec (p : List Token) (A B C : JSON)
    (hget : getAt C p = some A)
    (hd : diffJSON p A B = if A = B then [] else [PatchOp.replace p B]) :
    applyOps (diffJSON p A B) C = setAt C p B := by
  rw [hd]
  split
  · rename_i h
    simp only [applyOps]
    rw [← h, setAt_self p C _ hget]
  · rw [applyOps_one]
    rfl


mutual

theorem diffJSON_spec : ∀ (p : List Token) (A B C : JSON),
    wfB A = true → wfB B = true → getAt C p = some A →
    applyOps (diffJSON p A B) C = setAt C p B
  | p, JSON.obj fa, JSON.obj fb, C, hA, hB, hget => by
    have hA1 : keysSorted fa = true ∧ wfObj fa = true := by
      simpa [wfB, Bool.and_eq_true] using hA
    have hB1 : keysSorted fb = true ∧ wfObj fb = true := by
      simpa [wfB, Bool.and_eq_true] using hB
    have h := diffObj_spec p [] fa fb C
      (by simpa using (keysSorted_iff_pairwise fa).mp hA1.1)
      (by simpa using (keysSorted_iff_pairwise fb).mp hB1.1)
      ((wfObj_mem fa).mp hA1.2) ((wfObj_mem fb).mp hB1.2)
      (by simpa using hget)
    simpa [diffJSON] using h
  | p, JSON.arr xa, JSON.arr xb, C, hA, hB, hget => by
    have h := diffArr_spec p [] xa xb C
      ((wfArr_mem xa).mp (by simpa [wfB] using hA))
      ((wfArr_mem xb).mp (by simpa [wfB] using hB))
      (by simpa using hget)
    simpa [diffJSON] using h
  | p, JSON.obj fa, JSON.null, C, _, _, hget =>
    diffJSON_scalar_spec p _ _ C hget (by simp [diffJSON])
  | p, JSON.obj fa, JSON.bool b2, C, _, _, hget =>
    diffJSON_scalar_spec p _ _ C hget (by simp [diffJSON])
  | p, JSON.obj fa, JSON.num n2, C, _, _, hget =>
    diffJSON_scalar_spec p _ _ C hget (by simp [diffJSON])
  | p, JSON.obj fa, JSON.str s2, C, _, _, hget =>
    diffJSON_scalar_spec p _ _ C hget (by simp [diffJSON])
  | p, JSON.obj fa, JSON.arr xb, C, _, _, hget =>
    diffJSON_scalar_spec p _ _ C hget (by simp [diffJSON])
  | p, JSON.arr xa, JSON.null, C, _, _, hget =>
    diffJSON_scalar_spec p _ _ C hget (by simp [diffJSON])
  | p, JSON.arr xa, JSON.bool b2, C, _, _, hget =>
    diffJSON_scalar_spec p _ _ C hget (by simp [diffJSON])
  | p, JSON.arr xa, JSON.num n2, C, _, _, hget =>
    diffJSON_scalar_spec p _ _ C hget (by simp [diffJSON])
  | p, JSON.arr xa, JSON.str s2, C, _, _, hget =>
    diffJSON_scalar_spec p _ _ C hget (by simp [diffJSON])
  | p, JSON.arr xa, JSON.obj fb, C, _, _, hget =>
    diffJSON_scalar_spec p _ _ C hget (by simp [diffJSON])
  | p, JSON.null, B, C, _, _, hget =>
    diffJSON_scalar_spec p _ _ C hget (by cases B <;> simp [diffJSON])
  | p, JSON.bool b1, B, C, _, _, hget =>
    diffJSON_scalar_spec p _ _ C hget (by cases B <;> simp [diffJSON])
  | p, JSON.num n1, B, C, _, _, hget =>
    diffJSON_scalar_spec p _ _ C hget (by cases B <;> simp [diffJSON])
  | p, JSON.str s1, B, C, _, _, hget =>
    diffJSON_scalar_spec p _ _ C hget (by cases B <;> simp [diffJSON])
termination_by p A B C => sizeOf A + sizeOf B

theorem diffObj_spec : ∀ (p : List Token) (pre fa fb : List (String × JSON)) (C : JSON),
    ((pre ++ fa).map Prod.fst).Pairwise (· < ·) →
    ((pre ++ fb).map Prod.fst).Pairwise (· < ·) →
    (∀ kv ∈ fa, wfB kv.2 = true) →
    (∀ kv ∈ fb, wfB kv.2 = true) →
    getAt C p = some (JSON.obj (pre ++ fa)) →
    applyOps (diffObj p fa fb) C = setAt C p (JSON.obj (pre ++ fb))
  | p, pre, [], [], C, hsa, hsb, hwa, hwb, hget => by
    simp only [diffObj, applyOps]
    rw [setAt_self p C _ hget]
  | p, pre, [], (kb, vb) :: fb1, C, hsa, hsb, hwa, hwb, hget => by
    simp only [diffObj]
    rw [List.append_nil] at hget
    have hlt : ∀ x ∈ pre, x.1 < kb := pairwise_cross_head pre fb1 kb vb hsb
    have hadd := applyAdd_key p kb vb C pre hget
    rw [objInsert_append_last kb vb pre hlt] at hadd
    obtain ⟨C1, hC1⟩ := setAt_total p C _ (JSON.obj (pre ++ [(kb, vb)])) hget
    have happly : applyOp C (PatchOp.add (p ++ [Token.key kb]) vb) = some C1 := by
      show applyAdd (p ++ [Token.key kb]) vb C = some C1
      rw [hadd, hC1]
    have hget1 : getAt C1 p = some (JSON.obj ((pre ++ [(kb, vb)]) ++ [])) := by
      simpa using getAt_setAt p C _ C1 hC1
    have hsa1 : (((pre ++ [(kb, vb)]) ++ []).map Prod.fst).Pairwise (· < ·) := by
      simpa using pairwise_append_last pre fb1 kb vb hsb
    have hsb1 : (((pre ++ [(kb, vb)]) ++ fb1).map Prod.fst).Pairwise (· < ·) := by
      simpa [List.append_assoc] using hsb
    have ih := diffObj_spec p (pre ++ [(kb, vb)]) [] fb1 C1 hsa1 hsb1
      (by simp) (fun kv hkv => hwb kv (List.mem_cons_of_mem _ hkv)) hget1
    simp only [List.append_assoc, List.singleton_append] at ih hC1 ⊢
    simp only [applyOps, happly, ih]
    exact setAt_setAt p C _ C1 _ hC1
  | p, pre, (ka, va) :: fa1, [], C, hsa, hsb, hwa, hwb, hget => by
    simp only [diffObj]
    have hlt : ∀ x ∈ pre, x.1 < ka := pairwise_cross_head pre fa1 ka va hsa
    have hne : ∀ x ∈ pre, x.1 ≠ ka := fun x hx => ne_of_lt (hlt x hx)
    have hg : objGet ka (pre ++ (ka, va) :: fa1) = some va := objGet_append ka va pre fa1 hne
    have hrem := applyRemove_key p ka C (pre ++ (ka, va) :: fa1) va hget hg
    rw [objRemove_append ka va pre fa1 hne] at hrem
    obtain ⟨C1, hC1⟩ := setAt_total p C _ (JSON.obj (pre ++ fa1)) hget
    have happly : applyOp C (PatchOp.remove (p ++ [Token.key ka])) = some C1 := by
      show applyRemove (p ++ [Token.key ka]) C = some C1
      rw [hrem, hC1]
    have hget1 : getAt C1 p = some (JSON.obj (pre ++ fa1)) := getAt_setAt p C _ C1 hC1
    have ih := diffObj_spec p pre fa1 [] C1
      (pairwise_drop_hd pre ka va fa1 hsa) hsb
      (fun kv hkv => hwa kv (List.mem_cons_of_mem _ hkv)) (by simp) hget1
    simp only [applyOps, happly, ih]
    exact setAt_setAt p C _ C1 _ hC1
  | p, pre, (ka, va) :: fa1, (kb, vb) :: fb1, C, hsa, hsb, hwa, hwb, hget => by
    by_cases h1 : ka < kb
    · simp only [diffObj, if_pos h1]
      have hlt : ∀ x ∈ pre, x.1 < ka := pairwise_cross_head pre fa1 ka va hsa
      have hne : ∀ x ∈ pre, x.1 ≠ ka := fun x hx => ne_of_lt (hlt x hx)
      have hg : objGet ka (pre ++ (ka, va) :: fa1) = some va := objGet_append ka va pre fa1 hne
      have hrem := applyRemove_key p ka C (pre ++ (ka, va) :: fa1) va hget hg
      rw [objRemove_append ka va pre fa1 hne] at hrem
      obtain ⟨C1, hC1⟩ := setAt_total p C _ (JSON.obj (pre ++ fa1)) hget
      have happly : applyOp C (PatchOp.remove (p ++ [Token.key ka])) = some C1 := by
        show applyRemove (p ++ [Token.key ka]) C = some C1
        rw [hrem, hC1]
      have hget1 : getAt C1 p = some (JSON.obj (pre ++ fa1)) := getAt_setAt p C _ C1 hC1
      have ih := diffObj_spec p pre fa1 ((kb, vb) :: fb1) C1
        (pairwise_drop_hd pre ka va fa1 hsa) hsb
        (fun kv hkv => hwa kv (List.mem_cons_of_mem _ hkv)) hwb hget1
      simp only [applyOps, happly, ih]
      exact setAt_setAt p C _ C1 _ hC1
    · by_cases h2 : kb < ka
      · simp only [diffObj, if_neg h1, if_pos h2]
        have hlt : ∀ x ∈ pre, x.1 < kb := pairwise_cross_head pre fb1 kb vb hsb
        have hadd := applyAdd_key p kb vb C (pre ++ (ka, va) :: fa1) hget
        rw [objInsert_append_mid kb ka vb va pre fa1 hlt h2] at hadd
        obtain ⟨C1, hC1⟩ := setAt_total p C _
          (JSON.obj (pre ++ (kb, vb) :: (ka, va) :: fa1)) hget
        have happly : applyOp C (PatchOp.add (p ++ [Token.key kb]) vb) = some C1 := by
          show applyAdd (p ++ [Token.key kb]) vb C = some C1
          rw [hadd, hC1]
        have hget1 : getAt C1 p =
            some (JSON.obj ((pre ++ [(kb, vb)]) ++ (ka, va) :: fa1)) := by
          simpa [List.append_assoc] using getAt_setAt p C _ C1 hC1
        have hsa1 : (((pre ++ [(kb, vb)]) ++ (ka, va) :: fa1).map Prod.fst).Pairwise (· < ·) := by
          simpa [List.append_assoc] using pairwise_insert_mid pre fa1 fb1 ka kb va vb hsa hsb h2
        have hsb1 : (((pre ++ [(kb, vb)]) ++ fb1).map Prod.fst).Pairwise (· < ·) := by
          simpa [List.append_assoc] using hsb
        have ih := diffObj_spec p (pre ++ [(kb, vb)]) ((ka, va) :: fa1) fb1 C1 hsa1 hsb1
          hwa (fun kv hkv => hwb kv (List.mem_cons_of_mem _ hkv)) hget1
        simp only [List.append_assoc, List.singleton_append] at ih hC1 ⊢
        simp only [applyOps, happly, ih]
        exact setAt_setAt p C _ C1 _ hC1
      · have heq : ka = kb := le_antisymm (not_lt.mp h2) (not_lt.mp h1)
        subst heq
        simp only [diffObj, if_neg h1, if_neg h2]
        rw [applyOps_append]
        have hlt : ∀ x ∈ pre, x.1 < ka := pairwise_cross_head pre fa1 ka va hsa
        have hne : ∀ x ∈ pre, x.1 ≠ ka := fun x hx => ne_of_lt (hlt x hx)
        have hg : objGet ka (pre ++ (ka, va) :: fa1) = some va :=
          objGet_append ka va pre fa1 hne
        have hget1 : getAt C (p ++ [Token.key ka]) = some va := by
          rw [getAt_append, hget]
          simp [getAt, hg]
        have h1v := diffJSON_spec (p ++ [Token.key ka]) va vb C
          (hwa (ka, va) (List.mem_cons_self _ _))
          (hwb (ka, vb) (List.mem_cons_self _ _))
          hget1
        have hset1 : setAt C (p ++ [Token.key ka]) vb =
            setAt C p (JSON.obj (objSet ka vb (pre ++ (ka, va) :: fa1))) :=
          setAt_append_key p ka vb C _ va hget hg
        rw [objSet_append ka vb va pre fa1 hne] at hset1
        obtain ⟨C1, hC1⟩ := setAt_total p C _ (JSON.obj (pre ++ (ka, vb) :: fa1)) hget
        have hfirst : applyOps (diffJSON (p ++ [Token.key ka]) va vb) C = some C1 := by
          rw [h1v, hset1, hC1]
        rw [hfirst]
        have hget2 : getAt C1 p = some (JSON.obj ((pre ++ [(ka, vb)]) ++ fa1)) := by
          simpa [List.append_assoc] using getAt_setAt p C _ C1 hC1
        have hkeys1 : (((pre ++ [(ka, vb)]) ++ fa1).map Prod.fst) =
            ((pre ++ (ka, va) :: fa1).map Prod.fst) := by
          simp [List.map_append]
        have hkeys2 : (((pre ++ [(ka, vb)]) ++ fb1).map Prod.fst) =
            ((pre ++ (ka, vb) :: fb1).map Prod.fst) := by
          simp [List.map_append]
        have ih := diffObj_spec p (pre ++ [(ka, vb)]) fa1 fb1 C1
          (by rw [hkeys1]; exact hsa) (by rw [hkeys2]; exact hsb)
          (fun kv hkv => hwa kv (List.mem_cons_of_mem _ hkv))
          (fun kv hkv => hwb kv (List.mem_cons_of_mem _ hkv))
          hget2
        simp only [List.append_assoc, List.singleton_append] at ih hC1 ⊢
        simp only [Option.some_bind, ih]
        exact setAt_setAt p C _ C1 _ hC1
termination_by p pre fa fb C => sizeOf fa + sizeOf fb

theorem diffArr_spec : ∀ (p : List Token) (pre xa xb : List JSON) (C : JSON),
    (∀ x ∈ xa, wfB x = true) → (∀ x ∈ xb, wfB x = true) →
    getAt C p = some (JSON.arr (pre ++ xa)) →
    applyOps (diffArr p pre.length xa xb) C = setAt C p (JSON.arr (pre ++ xb))
  | p, pre, [], [], C, hwa, hwb, hget => by
    simp only [diffArr, applyOps]
    rw [setAt_self p C _ hget]
  | p, pre, [], b :: bs, C, hwa, hwb, hget => by
    simp only [diffArr]
    rw [List.append_nil] at hget
    have hadd := applyAdd_idx p pre.length b C pre hget (by simp)
    rw [List.insertIdx_length_self] at hadd
    obtain ⟨C1, hC1⟩ := setAt_total p C _ (JSON.arr (pre ++ [b])) hget
    have happly : applyOp C (PatchOp.add (p ++ [Token.idx pre.length]) b) = some C1 := by
      show applyAdd (p ++ [Token.idx pre.length]) b C = some C1
      rw [hadd, hC1]
    have hget1 : getAt C1 p = some (JSON.arr ((pre ++ [b]) ++ [])) := by
      simpa using getAt_setAt p C _ C1 hC1
    have ih := diffArr_spec p (pre ++ [b]) [] bs C1 (by simp)
      (fun x hx => hwb x (List.mem_cons_of_mem _ hx)) hget1
    simp only [List.length_append, List.length_singleton] at ih
    simp only [List.append_assoc, List.singleton_append] at ih hC1 ⊢
    simp only [applyOps, happly, ih]
    exact setAt_setAt p C _ C1 _ hC1
  | p, pre, a :: as_, [], C, hwa, hwb, hget => by
    simp only [diffArr]
    have hrem := applyRemove_idx p pre.length C (pre ++ a :: as_) hget (by simp)
    rw [eraseIdx_append_cons] at hrem
    obtain ⟨C1, hC1⟩ := setAt_total p C _ (JSON.arr (pre ++ as_)) hget
    have happly : applyOp C (PatchOp.remove (p ++ [Token.idx pre.length])) = some C1 := by
      show applyRemove (p ++ [Token.idx pre.length]) C = some C1
      rw [hrem, hC1]
    have hget1 : getAt C1 p = some (JSON.arr (pre ++ as_)) := getAt_setAt p C _ C1 hC1
    have ih := diffArr_spec p pre as_ [] C1
      (fun x hx => hwa x (List.mem_cons_of_mem _ hx)) (by simp) hget1
    simp only [applyOps, happly, ih]
    exact setAt_setAt p C _ C1 _ hC1
  | p, pre, a :: as_, b :: bs, C, hwa, hwb, hget => by
    simp only [diffArr]
    rw [applyOps_append]
    have hget1 : getAt C (p ++ [Token.idx pre.length]) = some a := by
      rw [getAt_append, hget]
      simp only [Option.some_bind, getAt, getElem?_append_cons]
    have h1v := diffJSON_spec (p ++ [Token.idx pre.length]) a b C
      (hwa a (List.mem_cons_self _ _)) (hwb b (List.mem_cons_self _ _)) hget1
    have hset1 : setAt C (p ++ [Token.idx pre.length]) b =
        setAt C p (JSON.arr ((pre ++ a :: as_).set pre.length b)) :=
      setAt_append_idx p pre.length b C _ a hget (getElem?_append_cons pre a as_)
    rw [set_append_cons] at hset1
    obtain ⟨C1, hC1⟩ := setAt_total p C _ (JSON.arr (pre ++ b :: as_)) hget
    have hfirst : applyOps (diffJSON (p ++ [Token.idx pre.length]) a b) C = some C1 := by
      rw [h1v, hset1, hC1]
    rw [hfirst]
    have hget2 : getAt C1 p = some (JSON.arr ((pre ++ [b]) ++ as_)) := by
      simpa [List.append_assoc] using getAt_setAt p C _ C1 hC1
    have ih := diffArr_spec p (pre ++ [b]) as_ bs C1
      (fun x hx => hwa x (List.mem_cons_of_mem _ hx))
      (fun x hx => hwb x (List.mem_cons_of_mem _ hx))
      hget2
    simp only [List.length_append, List.length_singleton] at ih
    simp only [List.append_assoc, List.singleton_append] at ih hC1 ⊢
    simp only [Option.some_bind, ih]
    exact setAt_setAt p C _ C1 _ hC1
termination_by p pre xa xb C => sizeOf xa + sizeOf xb

end

/-- C1: for every pair of well-formed JSON documents A and B (objects in
the canonical key-sorted form Go's encoding/json produces), applying the
patch produced by JSONDiff(A, B) to A via JSONApplyPatch yields exactly B:
the diff/patch round-trip identity of generics/json_operations.go. -/
theorem C1_diff_patch_roundtrip (A B : JSON) (hA : wfB A = true) (hB : wfB B = true) :
    JSONApplyPatch A (JSONDiff A B) = some B := by
  have h := diffJSON_spec [] A B A hA hB (by simp [getAt])
  simpa [JSONDiff, JSONApplyPatch, setAt] using h

/-- Witness for C1 at a concrete pair of documents. -/
theorem C1_diff_patch_roundtrip_witness :
    wfB (JSON.obj [("a", JSON.num 1)]) = true ∧
    wfB (JSON.obj [("a", JSON.num 2), ("b", JSON.arr [JSON.num 3, JSON.null])]) = true ∧
    JSONApplyPatch (JSON.obj [("a", JSON.num 1)])
      (JSONDiff (JSON.obj [("a", JSON.num 1)])
        (JSON.obj [("a", JSON.num 2), ("b", JSON.arr [JSON.num 3, JSON.null])])) =
      some (JSON.obj [("a", JSON.num 2), ("b", JSON.arr [JSON.num 3, JSON.null])]) :=
  ⟨by simp [wfB, wfObj, wfArr, keysSorted],
   by simp [wfB, wfObj, wfArr, keysSorted] <;> decide,
   C1_diff_patch_roundtrip _ _
     (by simp [wfB, wfObj, wfArr, keysSorted])
     (by simp [wfB, wfObj, wfArr, keysSorted] <;> decide)⟩

/-!
### Raw byte content and the generics JSON operations on it
-/

/-- A Go byte string submitted as JSON content: either bytes that parse as
a JSON document or bytes that do not (such as the empty byte string a
fresh artefact connector starts with). -/
inductive RawMessage where
  | json (j : JSON) : RawMessage
  | raw (s : String) : RawMessage
deriving DecidableEq

/-- IsJSON of generics/json_operations.go: whether the bytes parse as JSON. -/
def IsJSON : RawMessage → Bool
  | RawMessage.json _ => true
  | RawMessage.raw _ => false

/-- JSONDiff on raw content: jsondiff.CompareJSON unmarshals both sides and
errors when either is not valid JSON. -/
def JSONDiffRaw : RawMessage → RawMessage → Option (List PatchOp)
  | RawMessage.json a, RawMessage.json b => some (JSONDiff a b)
  | _, _ => none

/-- JSONApplyPatch on raw content: patch.Apply errors when the source
bytes are not valid JSON or an operation fails. -/
def JSONApplyPatchRaw : RawMessage → List PatchOp → Option RawMessage
  | RawMessage.json a, ops => (applyOps ops a).map RawMessage.json
  | RawMessage.raw _, _ => none

/-!
### Layer 3 - the artefact connector (connect/layer_3_artefacts.go)
-/

/-- Constants of layer_3_artefacts.go. -/
def jsonArtefactsPathElement : String := "artefacts/json"

/-- Raw artefacts path element. -/
def rawArtefactsPathElement : String := "artefacts/raw"

/-- Artefact state path element. -/
def artefactStatePathElement : String := "state"

/-- Artefact considering path element. -/
def artefactConsideringPathElement : String := "considering"

/-- Artefact update path element. -/
def artefactUpdatePathElement : String := "update"

/-- TJSONDelta of layer_3_artefacts.go: RFC 6902 operations plus the
delta's own posting timestamp and the sender's current-state anchor. -/
structure TJSONDelta where
  Operations : List PatchOp
  Timestamp : String
  CurrentTimestamp : String
deriving DecidableEq

/-- The process-global timestamp source generics.GetTimestamp, modelled as
a supply of timestamp strings indexed by a call counter. -/
structure TSClock where
  tsAt : Nat → String
  idx : Nat

/-- Draw the next timestamp from the supply. -/
def getTimestampClock (w : TSClock) : String × TSClock :=
  (w.tsAt w.idx, { w with idx := w.idx + 1 })

/-- What the artefact connector hands to the Layer-2 bus: either a JSON
document (state postings) or a marshalled TJSONDelta (update/considering
postings; json.Marshal of the delta struct is injective). -/
inductive PostPayload where
  | doc (m : RawMessage) : PostPayload
  | delta (d : TJSONDelta) : PostPayload
deriving DecidableEq

/-- A posting issued by the artefact connector on the bus: topic path,
payload and the timestamp passed to postJSONAsFile. -/
structure Posting where
  topicPath : String
  payload : PostPayload
  timestamp : String
deriving DecidableEq

/-- TModellingBusArtefactConnector of layer_3_artefacts.go (the embedded
bus connector handle carries no artefact state and is left out; the
effects on the bus are returned as Posting lists). -/
structure TModellingBusArtefactConnector where
  JSONVersion : String
  ArtefactID : String
  CurrentTimestamp : String
  CurrentContent : RawMessage
  UpdatedContent : RawMessage
  ConsideredContent : RawMessage
  stateCommunicated : Bool
deriving DecidableEq

/-- Topic path for raw artefacts. -/
def rawArtefactsTopicPath (_b : TModellingBusArtefactConnector) (artefactID : String) : String :=
  rawArtefactsPathElement ++ "/" ++ artefactID

/-- Topic path for JSON artefacts. -/
def jsonArtefactsTopicPath (b : TModellingBusArtefactConnector) (artefactID : String) : String :=
  jsonArtefactsPathElement ++ "/" ++ artefactID ++ "/" ++ b.JSONVersion

/-- Topic path for JSON artefact states. -/
def jsonArtefactsStateTopicPath (b : TModellingBusArtefactConnector) (artefactID : String) : String :=
  jsonArtefactsTopicPath b artefactID ++ "/" ++ artefactStatePathElement

/-- Topic path for JSON artefact updates. -/
def jsonArtefactsUpdateTopicPath (b : TModellingBusArtefactConnector) (artefactID : String) : String :=
  jsonArtefactsTopicPath b artefactID ++ "/" ++ artefactUpdatePathElement

/-- Topic path for JSON artefact considering postings. -/
def jsonArtefactsConsideringTopicPath (b : TModellingBusArtefactConnector) (artefactID : String) : String :=
  jsonArtefactsTopicPath b artefactID ++ "/" ++ artefactConsideringPathElement

/-- postJSONDelta of layer_3_artefacts.go: diff the two states (reporting
and aborting when the diff fails), frame the delta with a fresh timestamp
and the sender's CurrentTimestamp anchor, and post it. -/
def postJSONDelta (b : TModellingBusArtefactConnector) (clk : TSClock)
    (deltaTopicPath : String) (oldStateJSON newStateJSON : RawMessage) :
    TSClock × List Posting :=
  match JSONDiffRaw oldStateJSON newStateJSON with
  | none => (clk, [])
  | some ops =>
    let r := getTimestampClock clk
    let delta : TJSONDelta :=
      { Operations := ops, Timestamp := r.1, CurrentTimestamp := b.CurrentTimestamp }
    (r.2, [{ topicPath := deltaTopicPath, payload := PostPayload.delta delta,
             timestamp := delta.Timestamp }])

/-- applyJSONDelta of layer_3_artefacts.go. The delta bytes are modelled
as an Option: none stands for bytes that fail to unmarshal as TJSONDelta.
Returns the new state (or the given one on any failure) and whether the
delta could be applied. -/
def applyJSONDelta (b : TModellingBusArtefactConnector)
    (currentJSONState : RawMessage) (deltaJSON : Option TJSONDelta) : RawMessage × Bool :=
  match deltaJSON with
  | none => (currentJSONState, false)
  | some delta =>
    if delta.CurrentTimestamp ≠ b.CurrentTimestamp then (currentJSONState, false)
    else
      match JSONApplyPatchRaw currentJSONState delta.Operations with
      | none => (currentJSONState, false)
      | some newJSONState => (newJSONState, true)

/-- updateCurrentJSONArtefact of layer_3_artefacts.go: adopt the state
into all three views and the timestamp anchor. -/
def updateCurrentJSONArtefact (b : TModellingBusArtefactConnector)
    (json : RawMessage) (currentTimestamp : String) : TModellingBusArtefactConnector :=
  { b with CurrentContent := json, UpdatedContent := json, ConsideredContent := json,
           CurrentTimestamp := currentTimestamp }

/-- updateUpdatedJSONArtefact of layer_3_artefacts.go: apply the delta to
CurrentContent, assigning the result to UpdatedContent (also when the
application was rejected), and copy it to ConsideredContent on success. -/
def updateUpdatedJSONArtefact (b : TModellingBusArtefactConnector)
    (json : Option TJSONDelta) : TModellingBusArtefactConnector × Bool :=
  let r := applyJSONDelta b b.CurrentContent json
  let b1 := { b with UpdatedContent := r.1 }
  if r.2 then ({ b1 with ConsideredContent := b1.UpdatedContent }, true)
  else (b1, false)

/-- updateConsideringJSONArtefact of layer_3_artefacts.go: apply the delta
to UpdatedContent, assigning the result to ConsideredContent (also when
the application was rejected). -/
def updateConsideringJSONArtefact (b : TModellingBusArtefactConnector)
    (json : Option TJSONDelta) : TModellingBusArtefactConnector × Bool :=
  let r := applyJSONDelta b b.UpdatedContent json
  ({ b with ConsideredContent := r.1 }, r.2)

/-- PostJSONArtefactState of layer_3_artefacts.go. -/
def PostJSONArtefactState (b : TModellingBusArtefactConnector) (clk : TSClock)
    (stateJSON : RawMessage) (okJSONing : Bool) :
    TModellingBusArtefactConnector × TSClock × List Posting :=
  if !okJSONing then (b, clk, [])
  else
    let r := getTimestampClock clk
    let b1 := { b with CurrentTimestamp := r.1, CurrentContent := stateJSON,
                       UpdatedContent := stateJSON, ConsideredContent := stateJSON }
    ({ b1 with stateCommunicated := true }, r.2,
     [{ topicPath := jsonArtefactsStateTopicPath b1 b1.ArtefactID,
        payload := PostPayload.doc b1.CurrentContent, timestamp := b1.CurrentTimestamp }])

/-- PostJSONArtefactUpdate of layer_3_artefacts.go. Note that after the
state auto-posting the control flow continues into the delta posting. -/
def PostJSONArtefactUpdate (b : TModellingBusArtefactConnector) (clk : TSClock)
    (updatedStateJSON : RawMessage) (okJSONing : Bool) :
    TModellingBusArtefactConnector × TSClock × List Posting :=
  if !okJSONing then (b, clk, [])
  else
    let s :=
      if !b.stateCommunicated then PostJSONArtefactState b clk updatedStateJSON okJSONing
      else (b, clk, [])
    let b1 := s.1
    let b2 := { b1 with UpdatedContent := updatedStateJSON, ConsideredContent := updatedStateJSON }
    let d := postJSONDelta b2 s.2.1 (jsonArtefactsUpdateTopicPath b2 b2.ArtefactID)
      b2.CurrentContent b2.UpdatedContent
    (b2, d.1, s.2.2 ++ d.2)

/-- PostJSONArtefactConsidering of layer_3_artefacts.go. The state
auto-posting carries the current content, and the delta is computed from
UpdatedContent to the considered state. -/
def PostJSONArtefactConsidering (b : TModellingBusArtefactConnector) (clk : TSClock)
    (consideringStateJSON : RawMessage) (okJSONing : Bool) :
    TModellingBusArtefactConnector × TSClock × List Posting :=
  if !okJSONing then (b, clk, [])
  else
    let s :=
      if !b.stateCommunicated then PostJSONArtefactState b clk b.CurrentContent okJSONing
      else (b, clk, [])
    let b1 := s.1
    let b2 := { b1 with ConsideredContent := consideringStateJSON }
    let d := postJSONDelta b2 s.2.1 (jsonArtefactsConsideringTopicPath b2 b2.ArtefactID)
      b2.UpdatedContent b2.ConsideredContent
    (b2, d.1, s.2.2 ++ d.2)

/-- Delivery of a retained state posting to the subscription callback
registered by ListenForJSONArtefactStatePostings: payload bytes and the
sender timestamp travelling in the link event. The Bool records that the
user handler was invoked. -/
def deliverJSONArtefactStatePosting (b : TModellingBusArtefactConnector)
    (json : RawMessage) (currentTimestamp : String) : TModellingBusArtefactConnector × Bool :=
  (updateCurrentJSONArtefact b json currentTimestamp, true)

/-- Delivery of a retained update delta to the callback registered by
ListenForJSONArtefactUpdatePostings; the handler runs only when the delta
was applied. -/
def deliverJSONArtefactUpdatePosting (b : TModellingBusArtefactConnector)
    (deltaJSON : Option TJSONDelta) : TModellingBusArtefactConnector × Bool :=
  updateUpdatedJSONArtefact b deltaJSON

/-- Delivery of a retained considering delta to the callback registered by
ListenForJSONArtefactConsideringPostings. -/
def deliverJSONArtefactConsideringPosting (b : TModellingBusArtefactConnector)
    (deltaJSON : Option TJSONDelta) : TModellingBusArtefactConnector × Bool :=
  updateConsideringJSONArtefact b deltaJSON

/-- CreateModellingBusArtefactConnector of layer_3_artefacts.go: all three
views start as the empty byte string (not valid JSON), the anchor is a
fresh timestamp, and no state has been communicated. -/
def CreateModellingBusArtefactConnector (clk : TSClock) (JSONVersion ArtefactID : String) :
    TModellingBusArtefactConnector × TSClock :=
  let r := getTimestampClock clk
  ({ JSONVersion := JSONVersion, ArtefactID := ArtefactID,
     CurrentContent := RawMessage.raw "", UpdatedContent := RawMessage.raw "",
     ConsideredContent := RawMessage.raw "", CurrentTimestamp := r.1,
     stateCommunicated := false }, r.2)

mutual

theorem diffJSON_refl : ∀ (p : List Token) (A : JSON), diffJSON p A A = []
  | p, JSON.null => by simp [diffJSON]
  | p, JSON.bool b => by simp [diffJSON]
  | p, JSON.num n => by simp [diffJSON]
  | p, JSON.str s => by simp [diffJSON]
  | p, JSON.obj fa => by
    simp only [diffJSON]
    exact diffObj_refl p fa
  | p, JSON.arr xa => by
    simp only [diffJSON]
    exact diffArr_refl p 0 xa
termination_by p A => sizeOf A

theorem diffObj_refl : ∀ (p : List Token) (fa : List (String × JSON)), diffObj p fa fa = []
  | p, [] => by simp [diffObj]
  | p, (k, v) :: fs => by
    simp only [diffObj, if_neg (lt_irrefl k)]
    rw [diffJSON_refl (p ++ [Token.key k]) v, diffObj_refl p fs]
    simp
termination_by p fa => sizeOf fa

theorem diffArr_refl : ∀ (p : List Token) (i : Nat) (xa : List JSON), diffArr p i xa xa = []
  | p, i, [] => by simp [diffArr]
  | p, i, a :: as_ => by
    simp only [diffArr]
    rw [diffJSON_refl (p ++ [Token.idx i]) a, diffArr_refl p (i + 1) as_]
    simp
termination_by p i xa => sizeOf xa

end

/-- C2 counterexample: a receiver whose UpdatedContent differs from its
CurrentContent, delivered an update delta with a mismatching anchor
("U" vs the receiver's "T"), has its UpdatedContent overwritten with
CurrentContent by the delivery - the views are not left unmutated. -/
theorem C2_anchor_counterexample :
    ("U" : String) ≠ "T" ∧
    (deliverJSONArtefactUpdatePosting
        ⟨"1.0", "a", "T", RawMessage.json JSON.null, RawMessage.json (JSON.bool true),
         RawMessage.json (JSON.bool true), true⟩
        (some ⟨[], "T9", "U"⟩)).1.UpdatedContent ≠ RawMessage.json (JSON.bool true) := by
  constructor
  · decide
  · simp [deliverJSONArtefactUpdatePosting, updateUpdatedJSONArtefact, applyJSONDelta]

/-- C2 (amended): a delta whose currentTimestamp differs from the
receiver's anchor is rejected (not applied, handler not invoked) and
CurrentContent, CurrentTimestamp and stateCommunicated are unchanged; but
the delivery does write one view: an update delivery resets UpdatedContent
to CurrentContent (ConsideredContent untouched), and a considering
delivery resets ConsideredContent to UpdatedContent. -/
theorem C2_anchor_discipline (b : TModellingBusArtefactConnector) (d : TJSONDelta)
    (hne : d.CurrentTimestamp ≠ b.CurrentTimestamp) :
    deliverJSONArtefactUpdatePosting b (some d) =
      ({ b with UpdatedContent := b.CurrentContent }, false) ∧
    deliverJSONArtefactConsideringPosting b (some d) =
      ({ b with ConsideredContent := b.UpdatedContent }, false) := by
  constructor <;>
    simp [deliverJSONArtefactUpdatePosting, deliverJSONArtefactConsideringPosting,
      updateUpdatedJSONArtefact, updateConsideringJSONArtefact, applyJSONDelta, hne]

/-- Witness for C2's amended theorem at a concrete receiver and delta. -/
theorem C2_anchor_discipline_witness :
    ("U" : String) ≠ "T" ∧
    (deliverJSONArtefactUpdatePosting
        ⟨"1.0", "a", "T", RawMessage.json JSON.null, RawMessage.json (JSON.bool true),
         RawMessage.json (JSON.bool true), true⟩ (some ⟨[], "T9", "U"⟩) =
      ({ JSONVersion := "1.0", ArtefactID := "a", CurrentTimestamp := "T",
         CurrentContent := RawMessage.json JSON.null,
         UpdatedContent := RawMessage.json JSON.null,
         ConsideredContent := RawMessage.json (JSON.bool true),
         stateCommunicated := true }, false) ∧
     deliverJSONArtefactConsideringPosting
        ⟨"1.0", "a", "T", RawMessage.json JSON.null, RawMessage.json (JSON.bool true),
         RawMessage.json (JSON.bool true), true⟩ (some ⟨[], "T9", "U"⟩) =
      ({ JSONVersion := "1.0", ArtefactID := "a", CurrentTimestamp := "T",
         CurrentContent := RawMessage.json JSON.null,
         UpdatedContent := RawMessage.json (JSON.bool true),
         ConsideredContent := RawMessage.json (JSON.bool true),
         stateCommunicated := true }, false)) :=
  ⟨by decide,
   C2_anchor_discipline
     ⟨"1.0", "a", "T", RawMessage.json JSON.null, RawMessage.json (JSON.bool true),
      RawMessage.json (JSON.bool true), true⟩ ⟨[], "T9", "U"⟩ (by decide)⟩

/-- C3 counterexample: a sender that has never communicated state and
calls PostJSONArtefactUpdate produces two published messages, not one:
the auto-issued state posting and then an update delta (with empty
operations), because the code does not return after the state posting. -/
theorem C3_counterexample :
    (PostJSONArtefactUpdate
        ⟨"1.0", "a", "t0", RawMessage.raw "", RawMessage.raw "", RawMessage.raw "", false⟩
        ⟨fun _ => "t1", 0⟩ (RawMessage.json (JSON.num 7)) true).2.2 =
      [⟨"artefacts/json/a/1.0/state", PostPayload.doc (RawMessage.json (JSON.num 7)), "t1"⟩,
       ⟨"artefacts/json/a/1.0/update", PostPayload.delta ⟨[], "t1", "t1"⟩, "t1"⟩] := by
  simp [PostJSONArtefactUpdate, PostJSONArtefactState, postJSONDelta, getTimestampClock,
    JSONDiffRaw, JSONDiff, diffJSON_refl, jsonArtefactsStateTopicPath,
    jsonArtefactsUpdateTopicPath, jsonArtefactsTopicPath, jsonArtefactsPathElement,
    artefactStatePathElement, artefactUpdatePathElement]

/-- C3 (amended): a sender with stateCommunicated false calling
PostJSONArtefactUpdate(x) with valid JSON x publishes exactly two
messages: first a state posting with content x on the state topic, then
an update delta on the update topic whose operations are empty (the diff
of x against itself) and whose anchor is the state's fresh timestamp. -/
theorem C3_state_before_update (b : TModellingBusArtefactConnector) (clk : TSClock)
    (x : JSON) (h : b.stateCommunicated = false) :
    (PostJSONArtefactUpdate b clk (RawMessage.json x) true).2.2 =
      [{ topicPath := jsonArtefactsStateTopicPath b b.ArtefactID,
         payload := PostPayload.doc (RawMessage.json x), timestamp := clk.tsAt clk.idx },
       { topicPath := jsonArtefactsUpdateTopicPath b b.ArtefactID,
         payload := PostPayload.delta
           { Operations := [], Timestamp := clk.tsAt (clk.idx + 1),
             CurrentTimestamp := clk.tsAt clk.idx },
         timestamp := clk.tsAt (clk.idx + 1) }] := by
  simp [PostJSONArtefactUpdate, PostJSONArtefactState, postJSONDelta, h, getTimestampClock,
    JSONDiffRaw, JSONDiff, diffJSON_refl, jsonArtefactsStateTopicPath,
    jsonArtefactsUpdateTopicPath, jsonArtefactsTopicPath]

/-- Witness for C3's amended theorem at a concrete sender. -/
theorem C3_state_before_update_witness :
    (TModellingBusArtefactConnector.stateCommunicated
        ⟨"1.0", "a", "t0", RawMessage.raw "", RawMessage.raw "", RawMessage.raw "", false⟩ = false) ∧
    (PostJSONArtefactUpdate
        ⟨"1.0", "a", "t0", RawMessage.raw "", RawMessage.raw "", RawMessage.raw "", false⟩
        ⟨fun _ => "t1", 0⟩ (RawMessage.json (JSON.num 7)) true).2.2 =
      [{ topicPath := jsonArtefactsStateTopicPath
           ⟨"1.0", "a", "t0", RawMessage.raw "", RawMessage.raw "", RawMessage.raw "", false⟩ "a",
         payload := PostPayload.doc (RawMessage.json (JSON.num 7)), timestamp := "t1" },
       { topicPath := jsonArtefactsUpdateTopicPath
           ⟨"1.0", "a", "t0", RawMessage.raw "", RawMessage.raw "", RawMessage.raw "", false⟩ "a",
         payload := PostPayload.delta
           { Operations := [], Timestamp := "t1", CurrentTimestamp := "t1" },
         timestamp := "t1" }] :=
  ⟨rfl,
   C3_state_before_update
     ⟨"1.0", "a", "t0", RawMessage.raw "", RawMessage.raw "", RawMessage.raw "", false⟩
     ⟨fun _ => "t1", 0⟩ (JSON.num 7) rfl⟩

/-- C4 counterexample: on a freshly created connector the current content
is the empty byte string, which is not valid JSON, so the auto-issued
state posting carries it but the JSON diff for the considering delta
fails and no considering delta is published at all. -/
theorem C4_counterexample :
    (PostJSONArtefactConsidering
        ⟨"1.0", "a", "t0", RawMessage.raw "", RawMessage.raw "", RawMessage.raw "", false⟩
        ⟨fun _ => "t1", 0⟩ (RawMessage.json (JSON.num 7)) true).2.2 =
      [⟨"artefacts/json/a/1.0/state", PostPayload.doc (RawMessage.raw ""), "t1"⟩] := by
  decide

/-- C4 (amended): for a sender with stateCommunicated false whose
CurrentContent is valid JSON c, PostJSONArtefactConsidering(y) with valid
JSON y first auto-issues a state posting carrying c (the connector's
CurrentContent) and then publishes a considering delta whose operations
are diff(UpdatedContent, y) where UpdatedContent equals c, the
CurrentContent, at that moment. On a freshly created connector, whose
CurrentContent is the empty byte string, the diff fails and only the
state posting goes out. -/
theorem C4_considering_requires_updated (b : TModellingBusArtefactConnector) (clk : TSClock)
    (c y : JSON) (h : b.stateCommunicated = false)
    (hc : b.CurrentContent = RawMessage.json c) :
    (PostJSONArtefactConsidering b clk (RawMessage.json y) true).2.2 =
      [{ topicPath := jsonArtefactsStateTopicPath b b.ArtefactID,
         payload := PostPayload.doc (RawMessage.json c), timestamp := clk.tsAt clk.idx },
       { topicPath := jsonArtefactsConsideringTopicPath b b.ArtefactID,
         payload := PostPayload.delta
           { Operations := JSONDiff c y, Timestamp := clk.tsAt (clk.idx + 1),
             CurrentTimestamp := clk.tsAt clk.idx },
         timestamp := clk.tsAt (clk.idx + 1) }] := by
  simp [PostJSONArtefactConsidering, PostJSONArtefactState, postJSONDelta, h, hc,
    getTimestampClock, JSONDiffRaw, jsonArtefactsStateTopicPath,
    jsonArtefactsConsideringTopicPath, jsonArtefactsTopicPath]

/-- Witness for C4's amended theorem at a concrete sender that received a
state (valid CurrentContent) but never posted one. -/
theorem C4_considering_requires_updated_witness :
    (TModellingBusArtefactConnector.stateCommunicated
        ⟨"1.0", "a", "t0", RawMessage.json JSON.null, RawMessage.json JSON.null,
         RawMessage.json JSON.null, false⟩ = false) ∧
    (TModellingBusArtefactConnector.CurrentContent
        ⟨"1.0", "a", "t0", RawMessage.json JSON.null, RawMessage.json JSON.null,
         RawMessage.json JSON.null, false⟩ = RawMessage.json JSON.null) ∧
    (PostJSONArtefactConsidering
        ⟨"1.0", "a", "t0", RawMessage.json JSON.null, RawMessage.json JSON.null,
         RawMessage.json JSON.null, false⟩
        ⟨fun _ => "t1", 0⟩ (RawMessage.json (JSON.num 7)) true).2.2 =
      [{ topicPath := jsonArtefactsStateTopicPath
           ⟨"1.0", "a", "t0", RawMessage.json JSON.null, RawMessage.json JSON.null,
            RawMessage.json JSON.null, false⟩ "a",
         payload := PostPayload.doc (RawMessage.json JSON.null), timestamp := "t1" },
       { topicPath := jsonArtefactsConsideringTopicPath
           ⟨"1.0", "a", "t0", RawMessage.json JSON.null, RawMessage.json JSON.null,
            RawMessage.json JSON.null, false⟩ "a",
         payload := PostPayload.delta
           { Operations := JSONDiff JSON.null (JSON.num 7), Timestamp := "t1",
             CurrentTimestamp := "t1" },
         timestamp := "t1" }] :=
  ⟨rfl, rfl,
   C4_considering_requires_updated
     ⟨"1.0", "a", "t0", RawMessage.json JSON.null, RawMessage.json JSON.null,
      RawMessage.json JSON.null, false⟩
     ⟨fun _ => "t1", 0⟩ JSON.null (JSON.num 7) rfl rfl⟩

/-- C5: delivering a state posting with content json and sender timestamp
ts sets all three views to json, adopts ts as the receiver's
CurrentTimestamp, and invokes the user handler. -/
theorem C5_state_reset (b : TModellingBusArtefactConnector) (json : RawMessage) (ts : String) :
    deliverJSONArtefactStatePosting b json ts =
      ({ b with CurrentContent := json, UpdatedContent := json,
                ConsideredContent := json, CurrentTimestamp := ts }, true) :=
  rfl

/-- C10: with okJSONing false, each of the three posting operations
returns immediately: no timestamp is drawn, nothing is published, and the
connector is unchanged in every field. -/
theorem C10_not_ok_noop (b : TModellingBusArtefactConnector) (clk : TSClock) (x : RawMessage) :
    PostJSONArtefactState b clk x false = (b, clk, []) ∧
    PostJSONArtefactUpdate b clk x false = (b, clk, []) ∧
    PostJSONArtefactConsidering b clk x false = (b, clk, []) :=
  ⟨rfl, rfl, rfl⟩

/-!
### Layer 1 - per-agent timestamps (GetTimestamp of the protocol connector)
-/

/-- The connector state feeding GetTimestamp: the last formatted
wall-clock second and the per-second counter. -/
structure TimestampState where
  lastTimeTimestamp : String
  timestampCounter : Nat
deriving DecidableEq

/-- Sprintf "%02d": two digits up to 99, then the plain decimal digits. -/
def format02d (n : Nat) : String :=
  if n < 10 then "0" ++ toString n else toString n

/-- GetTimestamp of the Layer-1 protocol connector: format the current
wall-clock second (the formatted reading of time.Now() is an explicit
input here), bump the per-second counter when the second has not changed
and reset it otherwise, and return lastTimeTimestamp-NN. -/
def GetTimestamp (nowFormatted : String) (s : TimestampState) : String × TimestampState :=
  if nowFormatted = s.lastTimeTimestamp then
    let s1 := { s with timestampCounter := s.timestampCounter + 1 }
    (s1.lastTimeTimestamp ++ "-" ++ format02d s1.timestampCounter, s1)
  else
    let s1 : TimestampState := { lastTimeTimestamp := nowFormatted, timestampCounter := 0 }
    (s1.lastTimeTimestamp ++ "-" ++ format02d s1.timestampCounter, s1)

theorem GetTimestamp_fst (now : String) (s : TimestampState) :
    (GetTimestamp now s).1 =
      (GetTimestamp now s).2.lastTimeTimestamp ++ "-" ++
        format02d (GetTimestamp now s).2.timestampCounter := by
  unfold GetTimestamp
  split <;> rfl

theorem format02d_mono : ∀ c < 99, format02d c < format02d (c + 1) := by
  have h : ∀ c < 99, (format02d c).toList < (format02d (c + 1)).toList := by decide
  intro c hc
  rw [String.lt_iff_toList_lt]
  exact h c hc

theorem list_lex_append_left {α : Type} [LT α] :
    ∀ (l u v : List α), List.Lex (· < ·) u v → List.Lex (· < ·) (l ++ u) (l ++ v) := by
  intro l u v h
  induction l with
  | nil => exact h
  | cons x l ih => exact List.Lex.cons ih

theorem list_lex_append_of_length_eq {α : Type} [LT α] :
    ∀ (l1 l2 u v : List α), l1.length = l2.length → List.Lex (· < ·) l1 l2 →
      List.Lex (· < ·) (l1 ++ u) (l2 ++ v) := by
  intro l1 l2 u v hlen h
  induction h generalizing u v with
  | nil => simp at hlen
  | cons h1 ih => exact List.Lex.cons (ih u v (by simpa using hlen))
  | rel hab => exact List.Lex.rel hab

theorem string_append_lt_right (s u v : String) (h : u < v) : s ++ u < s ++ v := by
  rw [String.lt_iff_toList_lt] at h ⊢
  simp only [String.toList, String.data_append]
  simp only [String.toList] at h
  exact list_lex_append_left s.data u.data v.data h

theorem string_append_lt_of_lt_of_length_eq (s t u v : String)
    (h : s < t) (hlen : s.length = t.length) : s ++ u < t ++ v := by
  rw [String.lt_iff_toList_lt] at h ⊢
  simp only [String.toList, String.data_append]
  simp only [String.toList] at h
  exact list_lex_append_of_length_eq s.data t.data u.data v.data hlen h

/-- C6 counterexample: the 100th and 101st GetTimestamp calls within one
wall-clock second return "...-99" and then "...-100"; under lexicographic
string comparison "...-100" is smaller than "...-99", so two consecutive
calls are not strictly increasing once more than 100 calls hit the same
second (%02d widens to three digits). -/
theorem C6_counterexample :
    ¬ ((GetTimestamp "2025-01-01-00-00-00" ⟨"2025-01-01-00-00-00", 98⟩).1 <
       (GetTimestamp "2025-01-01-00-00-00"
          (GetTimestamp "2025-01-01-00-00-00" ⟨"2025-01-01-00-00-00", 98⟩).2).1) := by
  simp only [String.lt_iff_toList_lt]
  decide

/-- C6 (amended): two consecutive GetTimestamp calls of one publisher
return strictly increasing strings provided that either the second call
falls in the same wall-clock second and at most 100 calls hit that second
(the per-second counter stays at two digits, at most 99), or the
wall-clock second advanced to a lexicographically larger formatted string
of the same length. -/
theorem C6_monotonic_timestamps (now1 now2 : String) (s0 : TimestampState)
    (h : (now2 = (GetTimestamp now1 s0).2.lastTimeTimestamp ∧
          (GetTimestamp now1 s0).2.timestampCounter + 1 ≤ 99) ∨
         (now2 ≠ (GetTimestamp now1 s0).2.lastTimeTimestamp ∧
          (GetTimestamp now1 s0).2.lastTimeTimestamp < now2 ∧
          (GetTimestamp now1 s0).2.lastTimeTimestamp.length = now2.length)) :
    (GetTimestamp now1 s0).1 < (GetTimestamp now2 (GetTimestamp now1 s0).2).1 := by
  have hfst := GetTimestamp_fst now1 s0
  set s1 := (GetTimestamp now1 s0).2 with hs1
  rw [hfst]
  rcases h with ⟨heq, hle⟩ | ⟨hne, hlt, hlen⟩
  · unfold GetTimestamp
    rw [if_pos heq]
    dsimp only
    exact string_append_lt_right (s1.lastTimeTimestamp ++ "-") _ _
      (format02d_mono s1.timestampCounter (by omega))
  · unfold GetTimestamp
    rw [if_neg hne]
    dsimp only
    have h2 := string_append_lt_of_lt_of_length_eq
      s1.lastTimeTimestamp now2
      ("-" ++ format02d s1.timestampCounter)
      ("-" ++ format02d 0) hlt hlen
    simpa [String.append_assoc] using h2

/-- Witness for C6's amended theorem: two same-second calls with a small
counter. -/
theorem C6_monotonic_timestamps_witness :
    (("x" : String) = (GetTimestamp "x" ⟨"x", 0⟩).2.lastTimeTimestamp ∧
     (GetTimestamp "x" ⟨"x", 0⟩).2.timestampCounter + 1 ≤ 99) ∧
    (GetTimestamp "x" ⟨"x", 0⟩).1 < (GetTimestamp "x" (GetTimestamp "x" ⟨"x", 0⟩).2).1 :=
  ⟨⟨by decide, by decide⟩,
   C6_monotonic_timestamps "x" "x" ⟨"x", 0⟩ (Or.inl ⟨by decide, by decide⟩)⟩

/-!
### Layer 1 - the repository connector, and the Layer-2 posting path
-/

/-- Constants of the generics package. -/
def ModellingBusVersion : String := "bus-version-1.0"

/-- Name of the payload file stored under each topic path. -/
def PayloadFileName : String := "payload"

/-- Name of the local temporary JSON file. -/
def JSONFileName : String := "message.json"

/-- tRepositoryEvent of the repository connector; the zero value has every
field empty. -/
structure tRepositoryEvent where
  Server : String := ""
  Port : String := ""
  FilePath : String := ""
  Timestamp : String := ""
deriving DecidableEq

/-- The configuration fields of tModellingBusRepositoryConnector that the
posting path reads. The field called p r e f i x in the Go structure is
named pathRoot here because its source name is reserved in Lean. -/
structure tModellingBusRepositoryConnector where
  port : String
  server : String
  pathRoot : String
  agentID : String
  environmentID : String
  localWorkDirectory : String
  singleServerMode : Bool
deriving DecidableEq

/-- The outcomes of the fallible externals one addFile/addJSONAsFile run
touches: opening the local file, dialling the FTP server, storing the
payload, and writing the local temporary file. -/
structure RepoWorld where
  openOk : Bool
  connectOk : Bool
  storeOk : Bool
  writeOk : Bool
deriving DecidableEq

/-- ftpTopicPath of the repository connector. -/
def ftpTopicPath (r : tModellingBusRepositoryConnector) (topicPath : String) : String :=
  r.pathRoot ++ "/" ++ ModellingBusVersion ++ "/" ++ r.environmentID ++ "/" ++
    r.agentID ++ "/" ++ topicPath

/-- addFile of the repository connector: the event's Timestamp is set
before any fallible step; on open, dial, or store failure the event is
returned with the remaining fields still empty; on success Server/Port
are filled unless in single-server mode, and FilePath points at the
payload file. mkRepositoryFilePath only creates directories and does not
touch the event. -/
def addFile (r : tModellingBusRepositoryConnector) (w : RepoWorld)
    (topicPath _localFilePath timestamp : String) : tRepositoryEvent :=
  let remotePayloadFileNamePath := ftpTopicPath r topicPath ++ "/" ++ PayloadFileName
  let ev0 : tRepositoryEvent := { Timestamp := timestamp }
  if !w.openOk then ev0
  else if !w.connectOk then ev0
  else if !w.storeOk then ev0
  else { Server := if r.singleServerMode then "" else r.server,
         Port := if r.singleServerMode then "" else r.port,
         FilePath := remotePayloadFileNamePath,
         Timestamp := timestamp }

/-- addJSONAsFile of the repository connector: non-JSON content or a
failed temporary-file write yields the zero event; otherwise the content
is stored via addFile. -/
def addJSONAsFile (r : tModellingBusRepositoryConnector) (w : RepoWorld)
    (topicPath : String) (json : RawMessage) (timestamp : String) : tRepositoryEvent :=
  if !IsJSON json then {}
  else if !w.writeOk then {}
  else addFile r w topicPath (r.localWorkDirectory ++ "/" ++ JSONFileName) timestamp

/-- Modelled from the spec: maybePostEvent of the Layer-1 events
connector, whose source file is not under src/ (layer_2 only calls it).
Per the section 4.4 failure policy a marshalling error is reported to the
reporter and the posting becomes a no-op; otherwise the message is
published (retained) on the topic. The marshalled link event is
represented by the tRepositoryEvent itself (json.Marshal is injective). -/
def maybePostEvent (topicPath : String) (message : tRepositoryEvent)
    (marshalOk : Bool) : List (String × tRepositoryEvent) :=
  if marshalOk then [(topicPath, message)] else []

/-- postJSONAsFile of layer_2_basic_modelling_bus.go: store the JSON in
the repository, marshal the resulting link event (marshalling a plain
string struct cannot fail) and publish it. Returns the messages published
on the event channel. -/
def postJSONAsFile (r : tModellingBusRepositoryConnector) (w : RepoWorld)
    (topicPath : String) (jsonMessage : RawMessage) (timestamp : String) :
    List (String × tRepositoryEvent) :=
  maybePostEvent topicPath (addJSONAsFile r w topicPath jsonMessage timestamp) true

/-- postFile of layer_2_basic_modelling_bus.go. -/
def postFile (r : tModellingBusRepositoryConnector) (w : RepoWorld)
    (topicPath localFilePath timestamp : String) : List (String × tRepositoryEvent) :=
  maybePostEvent topicPath (addFile r w topicPath localFilePath timestamp) true

/-- C7 counterexample: posting non-JSON bytes through postJSONAsFile on a
healthy transport reports the validation error and skips the repository
upload, but still publishes one link event (with every field empty) on
the event channel - the operation is not a publication no-op. -/
theorem C7_counterexample :
    postJSONAsFile ⟨"21", "srv", "pre", "agent", "env", "wrk", false⟩ ⟨true, true, true, true⟩
      "topic" (RawMessage.raw "not json") "ts" =
      [("topic", (⟨"", "", "", ""⟩ : tRepositoryEvent))] := by
  decide

/-- C7 (amended): when the posting fails - the content is not JSON, the
temporary file cannot be written, or the repository upload fails (open,
dial or store) - the error is reported and the upload is skipped, but a
link event is still published on the event channel; its filePath is
empty. Only a marshalling failure of the link event itself would suppress
publication, and marshalling a tRepositoryEvent cannot fail. -/
theorem C7_failure_still_publishes (r : tModellingBusRepositoryConnector) (w : RepoWorld)
    (topicPath : String) (m : RawMessage) (ts : String)
    (hfail : IsJSON m = false ∨ w.writeOk = false ∨ w.openOk = false ∨
      w.connectOk = false ∨ w.storeOk = false) :
    ∃ ev, postJSONAsFile r w topicPath m ts = [(topicPath, ev)] ∧ ev.FilePath = "" := by
  refine ⟨addJSONAsFile r w topicPath m ts, rfl, ?_⟩
  obtain ⟨o, c, st, wr⟩ := w
  cases m <;> cases o <;> cases c <;> cases st <;> cases wr <;>
    first
      | rfl
      | (exfalso; simp_all [IsJSON])

/-- Witness for C7's amended theorem: a failed upload (store error). -/
theorem C7_failure_still_publishes_witness :
    (RepoWorld.storeOk ⟨true, true, false, true⟩ = false) ∧
    (∃ ev, postJSONAsFile ⟨"21", "srv", "pre", "agent", "env", "wrk", false⟩
        ⟨true, true, false, true⟩ "topic" (RawMessage.json JSON.null) "ts" =
        [("topic", ev)] ∧ ev.FilePath = "") :=
  ⟨rfl,
   C7_failure_still_publishes ⟨"21", "srv", "pre", "agent", "env", "wrk", false⟩
     ⟨true, true, false, true⟩ "topic" (RawMessage.json JSON.null) "ts"
     (Or.inr (Or.inr (Or.inr (Or.inr rfl))))⟩

/-- C8 counterexample: a failed upload (store error) in addFile returns an
event whose Timestamp field carries the posting timestamp - not the
zero-valued RepositoryEvent with all fields empty. -/
theorem C8_counterexample :
    addFile ⟨"21", "srv", "pre", "agent", "env", "wrk", false⟩ ⟨true, true, false, true⟩
        "topic" "f" "ts" ≠ ({} : tRepositoryEvent) ∧
    (addFile ⟨"21", "srv", "pre", "agent", "env", "wrk", false⟩ ⟨true, true, false, true⟩
        "topic" "f" "ts").Timestamp = "ts" := by
  constructor
  · decide
  · decide

/-- C8 (amended): a failing repository operation does not return the
fully zero event in general: addFile failures (open, dial or store)
return the event with Server, Port and FilePath empty but Timestamp
already set to the posting timestamp; only addJSONAsFile's own failures
(non-JSON content, temporary-file write error) return the all-empty
event. In every failure case FilePath is empty, so checking
filePath != "" detects the failure. -/
theorem C8_failure_event (r : tModellingBusRepositoryConnector) (w : RepoWorld)
    (topicPath localFilePath : String) (m : RawMessage) (ts : String) :
    ((w.openOk = false ∨ w.connectOk = false ∨ w.storeOk = false) →
      addFile r w topicPath localFilePath ts =
        { Server := "", Port := "", FilePath := "", Timestamp := ts }) ∧
    (IsJSON m = false ∨ w.writeOk = false →
      addJSONAsFile r w topicPath m ts = ({} : tRepositoryEvent)) := by
  obtain ⟨o, c, st, wr⟩ := w
  constructor
  · intro hfail
    cases o <;> cases c <;> cases st <;>
      first
        | rfl
        | (exfalso; simp_all)
  · intro hfail
    cases m <;> cases wr <;>
      first
        | rfl
        | (exfalso; simp_all [IsJSON])

/-- Witness for C8's amended theorem at a store failure and at non-JSON
content. -/
theorem C8_failure_event_witness :
    (RepoWorld.storeOk ⟨true, true, false, true⟩ = false) ∧
    addFile ⟨"21", "srv", "pre", "agent", "env", "wrk", false⟩ ⟨true, true, false, true⟩
        "topic" "f" "ts" = { Server := "", Port := "", FilePath := "", Timestamp := "ts" } ∧
    addJSONAsFile ⟨"21", "srv", "pre", "agent", "env", "wrk", false⟩ ⟨true, true, false, true⟩
        "topic" (RawMessage.raw "oops") "ts" = ({} : tRepositoryEvent) :=
  ⟨rfl,
   (C8_failure_event ⟨"21", "srv", "pre", "agent", "env", "wrk", false⟩ ⟨true, true, false, true⟩
      "topic" "f" (RawMessage.raw "oops") "ts").1 (Or.inr (Or.inr rfl)),
   (C8_failure_event ⟨"21", "srv", "pre", "agent", "env", "wrk", false⟩ ⟨true, true, false, true⟩
      "topic" "f" (RawMessage.raw "oops") "ts").2 (Or.inl rfl)⟩

/-!
### Layer 1 - recursive repository deletion (deleteRepositoryPath)
-/

/-- An FTP file tree node: a plain file or a directory with named
children. -/
inductive FSNode where
  | file : FSNode
  | dir (children : List (String × FSNode)) : FSNode

mutual

/-- deleteRepositoryPath of the repository connector, projected onto the
subtree at the given path. ReadDir yields the children (and yields zero
entries for a plain file, where it errors, and for an empty directory);
when there is at least one entry every child is deleted recursively and
then Rmdir removes the directory (succeeding only once it is empty);
otherwise client.Delete (FTP DELE) is issued, which removes a file but
cannot remove a directory. The result is none when the node is gone, or
the surviving remainder. -/
def deleteRepositoryPath : FSNode → Option FSNode
  | FSNode.file => none
  | FSNode.dir cs =>
    if cs.isEmpty then some (FSNode.dir cs)
    else
      let remaining := deleteRepositoryChildren cs
      if remaining.isEmpty then none else some (FSNode.dir remaining)
termination_by n => sizeOf n

/-- Recursive deletion of a directory's children, keeping whatever each
recursive deletion left behind. -/
def deleteRepositoryChildren : List (String × FSNode) → List (String × FSNode)
  | [] => []
  | (n, c) :: rest =>
    match deleteRepositoryPath c with
    | none => deleteRepositoryChildren rest
    | some c1 => (n, c1) :: deleteRepositoryChildren rest
termination_by cs => sizeOf cs

end

/-- C9: the recursive delete treats a path by its ReadDir listing, not by
whether it reads as a directory: a file is deleted as a file and a
directory with children has the children deleted first and is then
removed, as the claim says - but an empty directory, which still reads as
a directory (ReadDir succeeds with zero entries), falls into the file
branch, and the FTP DELE issued there cannot remove a directory, so the
empty directory survives, contradicting the code's own comment and the
claim. -/
theorem C9_empty_dir_survives :
    deleteRepositoryPath (FSNode.dir []) = some (FSNode.dir []) ∧
    deleteRepositoryPath FSNode.file = none ∧
    deleteRepositoryPath (FSNode.dir [("payload", FSNode.file)]) = none ∧
    deleteRepositoryPath (FSNode.dir [("a", FSNode.dir [])]) =
      some (FSNode.dir [("a", FSNode.dir [])]) := by
  refine ⟨?_, ?_, ?_, ?_⟩ <;>
    simp [deleteRepositoryPath, deleteRepositoryChildren]
